import Mathlib

/-!
Verification development for the four-player tile game rules engine
(`src/mahjong`).  Python services are shallowly embedded as Lean
functions: dataclasses become structures, `dataclasses.replace` becomes
structure update, raised exceptions become `Except` errors, and logging
statements are dropped.  Recursion over tile-count tables is expressed
with an explicit fuel argument equal to the number of tiles, which is
shown sufficient, so that all definitions compute by `rfl`/`decide`.
-/

namespace Mahjong

/-- Embeds `constants/enums.py` `Suit` (TONG/TIAO/WAN with `auto()` values 1,2,3). -/
inductive Suit
  | TONG
  | TIAO
  | WAN
deriving DecidableEq, Repr

/-- The `auto()` enum value of a suit, used by the sort key `(suit.value, rank)`. -/
def Suit.val : Suit → Nat
  | .TONG => 1
  | .TIAO => 2
  | .WAN => 3

/-- Embeds `models/tile.py` `Tile` (frozen dataclass of suit and rank).  The
Python constructor validates `1 <= rank <= 9`; here the rank is a plain
natural number and well-formedness is a separate predicate where needed. -/
structure Tile where
  suit : Suit
  rank : Nat
deriving DecidableEq, Repr

/-- The tile with the same suit and next rank, as looked up by
`counts.get((suit, rank + 1))` in `_check_sets`. -/
def tileSucc (t : Tile) : Tile := ⟨t.suit, t.rank + 1⟩

/-- Boolean `(suit.value, rank)` lexicographic comparison used to pick the
minimum entry in `_check_sets` (`min(..., key=lambda x: (x[0][0].value, x[0][1]))`). -/
def keyLeB (a b : Tile) : Bool :=
  decide (a.suit.val < b.suit.val) ||
    (decide (a.suit.val = b.suit.val) && decide (a.rank ≤ b.rank))

/-- Propositional version of the `(suit.value, rank)` lexicographic order. -/
def KeyLE (a b : Tile) : Prop :=
  a.suit.val < b.suit.val ∨ (a.suit.val = b.suit.val ∧ a.rank ≤ b.rank)

/-- The minimum-key tile of a nonempty list of tiles, computed as in the
Python `min` over the count table's keys.  Duplicate occurrences share the
same key, so folding over the raw tile list returns the same value as the
minimum over the distinct keys. -/
def minTile (a : Tile) (ts : List Tile) : Tile :=
  ts.foldl (fun m t => if keyLeB m t then m else t) a

/-- Removal of `k` copies of a tile from a list, as performed by the repeated
`new_counts[(suit, rank)] -= k` adjustments in `win_checker.py`. -/
def removeN : List Tile → Tile → Nat → List Tile
  | ts, _, 0 => ts
  | ts, t, k + 1 => removeN (ts.erase t) t k

namespace WinChecker

/-- Embeds `WinChecker._check_sets` (win_checker.py lines 126-182): recursively
consume the count table by removing, at the minimum `(suit.value, rank)` key, a
quad, then a triplet, then a sequence, backtracking on failure.  The Python
recursion is driven by the shrinking count table; here a fuel argument bounds
the recursion depth and `check_sets` instantiates it with the tile count, which
`checkSetsFuel_congr` below shows is sufficient. -/
def checkSetsFuel : Nat → List Tile → Bool
  | 0, ts => ts.isEmpty
  | _ + 1, [] => true
  | n + 1, a :: rest =>
    let ts := a :: rest
    let t0 := minTile a rest
    let c := ts.count t0
    let t1 := tileSucc t0
    let t2 := tileSucc t1
    (decide (4 ≤ c) && checkSetsFuel n (removeN ts t0 4)) ||
    (decide (3 ≤ c) && checkSetsFuel n (removeN ts t0 3)) ||
    (decide (1 ≤ c) && decide (1 ≤ ts.count t1) && decide (1 ≤ ts.count t2) &&
      checkSetsFuel n (((ts.erase t0).erase t1).erase t2))

/-- Wrapper for `WinChecker._check_sets` with the fuel fixed to the number of tiles. -/
def check_sets (ts : List Tile) : Bool := checkSetsFuel ts.length ts

/-- Embeds `WinChecker._check_hand_structure` (win_checker.py lines 100-124):
try every distinct tile value with count at least 2 as the pair, then check the
remainder decomposes into sets. -/
def check_hand_structure (tiles : List Tile) : Bool :=
  tiles.dedup.any fun t =>
    decide (2 ≤ tiles.count t) && check_sets (removeN tiles t 2)

/-- A sequence group: three consecutive ranks of one suit, starting at `t`. -/
def seqOf (t : Tile) : Multiset Tile := {t, tileSucc t, tileSucc (tileSucc t)}

/-- A complete group in the sense of the specification: a triplet (3 equal
tiles), a quad (4 equal tiles), or a sequence of 3 consecutive ranks in the
same suit. -/
inductive IsGroup : Multiset Tile → Prop
  | triplet (t : Tile) : IsGroup (Multiset.replicate 3 t)
  | quad (t : Tile) : IsGroup (Multiset.replicate 4 t)
  | run (t : Tile) : IsGroup (seqOf t)

/-- The tile multiset decomposes entirely into complete groups. -/
def GroupsDecomp (m : Multiset Tile) : Prop :=
  ∃ gl : List (Multiset Tile), (∀ g ∈ gl, IsGroup g) ∧ m = gl.sum

/-- The tile multiset decomposes into exactly one pair plus complete groups. -/
def PairPlusGroups (m : Multiset Tile) : Prop :=
  ∃ p : Tile, ∃ rest : Multiset Tile,
    m = Multiset.replicate 2 p + rest ∧ GroupsDecomp rest

end WinChecker

/-- Embeds `constants/enums.py` `ActionType`. -/
inductive ActionType
  | PONG
  | KONG
  | KONG_EXPOSED
  | KONG_CONCEALED
  | KONG_UPGRADE
  | HU
  | PASS
deriving DecidableEq, Repr

/-- Embeds `constants/enums.py` `GamePhase`. -/
inductive GamePhase
  | PREPARING
  | BURYING
  | PLAYING
  | ENDED
deriving DecidableEq, Repr

/-- Embeds `models/meld.py` `Meld` (frozen dataclass).  The Python `tiles`
tuple becomes a list. -/
structure Meld where
  meld_type : ActionType
  tiles : List Tile
  is_concealed : Bool := false
deriving DecidableEq, Repr

/-- Embeds `models/player.py` `Player`.  The dataclass omits `hu_tiles`, but
every service reads and writes `player.hu_tiles` (win records, the spec's
`won_tiles`), so it is modelled as a proper field defaulting to the empty
list. -/
structure Player where
  player_id : String
  hand : List Tile := []
  melds : List Meld := []
  buried_cards : List Tile := []
  missing_suit : Option Suit := none
  score : Int := 100
  is_hu : Bool := false
  last_drawn_tile : Option Tile := none
  hu_tiles : List Tile := []
deriving DecidableEq, Repr

/-- The tile multiset `WinChecker.is_hu` gathers: the hand, then the optional
extra tile, then all meld tiles flattened (win_checker.py lines 49-56). -/
def gatherTiles (p : Player) (extra : Option Tile) : List Tile :=
  p.hand ++ extra.toList ++ (p.melds.map Meld.tiles).flatten

/-- Embeds `WinChecker.is_hu` (win_checker.py lines 14-98): gather hand, the
optional extra tile and meld tiles; fail on an empty gather; fail when any
tile has the declared missing suit; fail when more than 2 distinct suits are
used; otherwise decide by `_check_hand_structure`. -/
def WinChecker.is_hu (p : Player) (extra : Option Tile) : Bool :=
  let all_tiles := gatherTiles p extra
  if all_tiles.isEmpty then false
  else
    (match p.missing_suit with
     | some ms => all_tiles.all fun t => decide (t.suit ≠ ms)
     | none => true) &&
    decide ((all_tiles.map Tile.suit).dedup.length ≤ 2) &&
    WinChecker.check_hand_structure all_tiles

/-- Embeds `models/discarded_tile.py` `DiscardedTile`: the declared shape of a
discard-log entry (tile, discarder id, sequence index).  Note that no code in
the repository ever constructs one: `discard_tile` appends the bare tile. -/
structure DiscardedTile where
  tile : Tile
  player_id : String
  turn_index : Nat
deriving DecidableEq, Repr

/-- Embeds `models/game_state.py` `GameState`.  The dataclass annotates
`public_discards` as `List[DiscardedTile]`, but at runtime `discard_tile`
appends the raw `Tile` (player_actions.py line 433) and every reader treats
entries as tiles, so the field is embedded with the runtime element type
`Tile`. -/
structure GameState where
  game_id : String
  players : List Player := []
  current_player_index : Nat := 0
  wall : List Tile := []
  public_discards : List Tile := []
  game_phase : GamePhase := .PREPARING
  base_score : Int := 1
  initial_total_score : Int := 400
deriving DecidableEq, Repr

/-- Sum of the players' scores, as read by `GameState.verify_zero_sum`. -/
def sumScores (players : List Player) : Int := (players.map Player.score).sum

/-- Embeds `GameState.verify_zero_sum` (game_state.py lines 25-32): raise
`RuntimeError` when the score total differs from `initial_total_score`. -/
def GameState.verify_zero_sum (gs : GameState) : Bool :=
  decide (sumScores gs.players = gs.initial_total_score)

/-- Embeds `models/response.py` `PlayerResponse`. -/
structure PlayerResponse where
  player_id : String
  action_type : ActionType
  target_tile : Tile
  priority : Int
deriving DecidableEq, Repr

/-- Embeds `PlayerResponse.get_priority`: HU=3, KONG/KONG_EXPOSED=2, PONG=1,
anything else 0. -/
def PlayerResponse.get_priority : ActionType → Int
  | .HU => 3
  | .KONG => 2
  | .KONG_EXPOSED => 2
  | .PONG => 1
  | _ => 0

/-- The error taxonomy of the Python services: `InvalidActionError`,
`InvalidGameStateError`, `ValueError`, `RuntimeError` (zero-sum violation),
`StopIteration` (a bare `next(...)` miss) and `IndexError`. -/
inductive Err
  | invalidAction
  | invalidGameState
  | valueErr
  | runtimeErr
  | stopIteration
  | indexErr
deriving DecidableEq, Repr

/-- In-place score adjustment `new_players[i] = replace(new_players[i],
score=new_players[i].score + d)` used by `_settle_kong_score`. -/
def updScore (l : List Player) (i : Nat) (d : Int) : List Player :=
  match l.get? i with
  | some pl => l.set i { pl with score := pl.score + d }
  | none => l

namespace PlayerActions

/-- Embeds `PlayerActions._settle_kong_score` (player_actions.py lines
183-250).  Exposed kong (KONG/KONG_EXPOSED): the discarder pays the claimant
`2 * base_score`.  Concealed and upgraded kong: every player whose id differs
from the claimant's pays `base_score` and the claimant receives
`3 * base_score`.  Any other action type returns the players unchanged. -/
def settle_kong_score (players : List Player) (base_score : Int)
    (kong_player_id : String) (kong_type : ActionType)
    (discard_player_id : Option String := none) : Except Err (List Player) :=
  match players.findIdx? (fun pl => pl.player_id == kong_player_id) with
  | none => .error .stopIteration
  | some kIdx =>
    if kong_type = .KONG ∨ kong_type = .KONG_EXPOSED then
      match discard_player_id with
      | none => .error .invalidAction
      | some did =>
        match players.findIdx? (fun pl => pl.player_id == did) with
        | none => .error .valueErr
        | some dIdx =>
          let kong_score := base_score * 2
          let ps1 := updScore players dIdx (-kong_score)
          .ok (updScore ps1 kIdx kong_score)
    else if kong_type = .KONG_CONCEALED ∨ kong_type = .KONG_UPGRADE then
      let kong_score := base_score * 1
      let ps1 := players.map fun pl =>
        if pl.player_id = kong_player_id then pl
        else { pl with score := pl.score - kong_score }
      .ok (updScore ps1 kIdx (kong_score * 3))
    else
      .ok players

/-- Embeds `GameManager.end_game` (game_manager.py lines 97-126): return the
state unchanged when already ENDED, otherwise set the phase to ENDED.  The
Python function assigns `game_state.game_phase = GamePhase.ENDED` on its
argument in place and returns that same object; the purely functional result
is embedded here and the in-place effect on the caller's reference is
captured by `inputAfter` below. -/
def endGame (gs : GameState) : GameState :=
  if gs.game_phase = .ENDED then gs else { gs with game_phase := .ENDED }

/-- Embeds `PlayerActions._next_player_draw` (player_actions.py lines
118-180): advance to the next seat modulo 4; when the wall is empty end the
game instead; otherwise the next seat draws the wall's head into its hand and
records it as `last_drawn_tile`. -/
def next_player_draw (gs : GameState) : Except Err GameState :=
  let new_idx := (gs.current_player_index + 1) % 4
  match gs.wall with
  | [] => .ok (endGame gs)
  | drawn :: restWall =>
    match gs.players.get? new_idx with
    | none => .error .indexErr
    | some np =>
      .ok { gs with
        players := gs.players.set new_idx
          { np with hand := np.hand ++ [drawn], last_drawn_tile := some drawn },
        wall := restWall,
        current_player_index := new_idx }

/-- Embeds `PlayerActions.collect_ai_responses`'s loop over
`game_state.players` (player_actions.py lines 44-77): skip the discarder and
the player whose id is the literal string "human"; give everyone else exactly
one response chosen as hu when `is_hu` succeeds with the discard, otherwise —
only for a player who has not won — exposed kong on 3 matching hand tiles,
pong on 2, else pass. -/
def collectLoop (discarded_tile : Tile) (discard_player_id : String) :
    List Player → List PlayerResponse
  | [] => []
  | pl :: rest =>
    if pl.player_id = discard_player_id then
      collectLoop discarded_tile discard_player_id rest
    else if pl.player_id = "human" then
      collectLoop discarded_tile discard_player_id rest
    else
      let action_type : ActionType :=
        if WinChecker.is_hu pl (some discarded_tile) then .HU
        else if pl.is_hu = false then
          if 3 ≤ pl.hand.count discarded_tile then .KONG_EXPOSED
          else if 2 ≤ pl.hand.count discarded_tile then .PONG
          else .PASS
        else .PASS
      { player_id := pl.player_id
        action_type := action_type
        target_tile := discarded_tile
        priority := PlayerResponse.get_priority action_type } ::
        collectLoop discarded_tile discard_player_id rest

/-- Embeds `PlayerActions.collect_ai_responses` (player_actions.py lines
20-77). -/
def collect_ai_responses (gs : GameState) (discarded_tile : Tile)
    (discard_player_id : String) : List PlayerResponse :=
  collectLoop discarded_tile discard_player_id gs.players

/-- Stable descending insertion by priority: a later response is placed after
every earlier response of greater-or-equal priority. -/
def insertDesc (r : PlayerResponse) : List PlayerResponse → List PlayerResponse
  | [] => [r]
  | x :: xs => if x.priority ≤ r.priority then r :: x :: xs
               else x :: insertDesc r xs

/-- Stable descending sort by priority, embedding Python's stable
`sorted(responses, key=lambda r: r.priority, reverse=True)` in
`process_responses`. -/
def sortResponsesDesc (l : List PlayerResponse) : List PlayerResponse :=
  l.foldr insertDesc []

/-- The winner's record update in the HU branch: mark `is_hu`, move the
winning tile into `hu_tiles` (removing it from the hand only when it was the
last drawn tile, i.e. a self-draw), clear `last_drawn_tile`. -/
def huUpdatedPlayer (player : Player) (target_tile : Tile) : Player :=
  { player with
      is_hu := true
      hand := if player.last_drawn_tile = some target_tile then
          player.hand.erase target_tile
        else player.hand
      hu_tiles := player.hu_tiles ++ [target_tile]
      last_drawn_tile := none }

/-- The HU branch of `declare_action` (player_actions.py lines 519-656):
distinguish self-draw (`last_drawn_tile` equals the target) from claiming a
discard, validate through `WinChecker.is_hu`, apply `huUpdatedPlayer`, then
advance to the next seat which draws the wall head (or end the game when the
wall is empty). -/
def declareHu (gs : GameState) (player_index : Nat) (player : Player)
    (target_tile : Tile) : Except Err GameState :=
  if player.last_drawn_tile = some target_tile ∧
      WinChecker.is_hu player none = false then
    .error .invalidAction
  else if ¬ player.last_drawn_tile = some target_tile ∧
      WinChecker.is_hu player (some target_tile) = false then
    .error .invalidAction
  else if player.last_drawn_tile = some target_tile ∧
      target_tile ∉ player.hand then
    -- list.remove of a tile that is not in the hand
    .error .valueErr
  else
    let new_players := gs.players.set player_index
      (huUpdatedPlayer player target_tile)
    let next_player_index := (player_index + 1) % 4
    match new_players.get? next_player_index with
    | none => .error .indexErr
    | some next_player =>
      match gs.wall with
      | [] =>
        .ok (endGame { gs with
          players := new_players,
          current_player_index := next_player_index })
      | drawn :: restWall =>
        .ok { gs with
          players := new_players.set next_player_index
            { next_player with
                hand := next_player.hand ++ [drawn]
                last_drawn_tile := some drawn },
          wall := restWall,
          current_player_index := next_player_index }

/-- The PONG branch of `declare_action` (player_actions.py lines 658-700):
two matching hand tiles leave the hand, an open triplet meld is appended and
the claimant becomes the current player. -/
def declarePong (gs : GameState) (player_index : Nat) (player : Player)
    (target_tile : Tile) : Except Err GameState :=
  if player.hand.count target_tile < 2 then .error .invalidAction
  else
    let new_hand := (player.hand.erase target_tile).erase target_tile
    let new_meld : Meld :=
      { meld_type := .PONG
        tiles := [target_tile, target_tile, target_tile]
        is_concealed := false }
    .ok { gs with
      players := gs.players.set player_index
        { player with hand := new_hand, melds := player.melds ++ [new_meld] },
      current_player_index := player_index }

/-- The exposed-kong branch of `declare_action` (player_actions.py lines
702-767): three matching hand tiles leave the hand, an open quad meld is
appended, a replacement tile is drawn from the wall tail, the claimant
becomes current, the score is settled and the zero-sum invariant
re-verified. -/
def declareKongExposed (gs : GameState) (player_index : Nat) (player : Player)
    (player_id : String) (action_type : ActionType) (target_tile : Tile)
    (discard_player_id : Option String) : Except Err GameState :=
  if player.hand.count target_tile < 3 then .error .invalidAction
  else
    let new_hand := removeN player.hand target_tile 3
    let meld_type := if action_type = .KONG_EXPOSED then
        ActionType.KONG_EXPOSED
      else ActionType.KONG
    let new_meld : Meld :=
      { meld_type := meld_type
        tiles := List.replicate 4 target_tile
        is_concealed := false }
    match gs.wall.getLast? with
    | none => .error .invalidAction
    | some drawn =>
      let new_wall := gs.wall.dropLast
      let new_players := gs.players.set player_index
        { player with
            hand := new_hand ++ [drawn]
            melds := player.melds ++ [new_meld] }
      match settle_kong_score new_players gs.base_score player_id
          meld_type discard_player_id with
      | .error e => .error e
      | .ok settled =>
        let new_gs := { gs with
          players := settled
          wall := new_wall
          current_player_index := player_index }
        if new_gs.verify_zero_sum then .ok new_gs
        else .error .runtimeErr

/-- The concealed-kong branch of `declare_action` (player_actions.py lines
769-818): four matching hand tiles leave the hand, a concealed quad meld is
appended, a replacement tile is drawn from the wall tail, the score is
settled (three payers) and the zero-sum invariant re-verified; the current
player index is left unchanged. -/
def declareKongConcealed (gs : GameState) (player_index : Nat)
    (player : Player) (player_id : String) (target_tile : Tile) :
    Except Err GameState :=
  if player.hand.count target_tile < 4 then .error .invalidAction
  else
    let new_hand := removeN player.hand target_tile 4
    let new_meld : Meld :=
      { meld_type := .KONG_CONCEALED
        tiles := List.replicate 4 target_tile
        is_concealed := true }
    match gs.wall.getLast? with
    | none => .error .invalidAction
    | some drawn =>
      let new_wall := gs.wall.dropLast
      let new_players := gs.players.set player_index
        { player with
            hand := new_hand ++ [drawn]
            melds := player.melds ++ [new_meld] }
      match settle_kong_score new_players gs.base_score player_id
          .KONG_CONCEALED with
      | .error e => .error e
      | .ok settled =>
        let new_gs := { gs with players := settled, wall := new_wall }
        if new_gs.verify_zero_sum then .ok new_gs
        else .error .runtimeErr

/-- The upgraded-kong branch of `declare_action` (player_actions.py lines
820-886): an existing PONG meld of the target value is promoted in place to
an open quad using one matching hand tile, a replacement tile is drawn from
the wall tail, the score is settled (three payers) and the zero-sum invariant
re-verified; the current player index is left unchanged.  `meld.tiles[0]` is
embedded as `tiles.head?` (engine-built melds always hold 3 or 4 tiles). -/
def declareKongUpgrade (gs : GameState) (player_index : Nat) (player : Player)
    (player_id : String) (target_tile : Tile) : Except Err GameState :=
  match player.melds.findIdx? (fun m =>
      m.meld_type == ActionType.PONG && m.tiles.head? == some target_tile) with
  | none => .error .invalidAction
  | some pong_index =>
    if player.hand.count target_tile < 1 then .error .invalidAction
    else
      let new_hand := player.hand.erase target_tile
      let new_melds := player.melds.set pong_index
        { meld_type := .KONG_UPGRADE
          tiles := List.replicate 4 target_tile
          is_concealed := false }
      match gs.wall.getLast? with
      | none => .error .invalidAction
      | some drawn =>
        let new_wall := gs.wall.dropLast
        let new_players := gs.players.set player_index
          { player with hand := new_hand ++ [drawn], melds := new_melds }
        match settle_kong_score new_players gs.base_score player_id
            .KONG_UPGRADE with
        | .error e => .error e
        | .ok settled =>
          let new_gs := { gs with players := settled, wall := new_wall }
          if new_gs.verify_zero_sum then .ok new_gs
          else .error .runtimeErr

/-- Embeds `PlayerActions.declare_action` (player_actions.py lines 457-888):
phase guard, player lookup, PASS no-op, the frozen-hand guard for a player
who has already won (PONG and the three specific kong variants, not the
generic KONG), then dispatch to the HU, PONG, exposed-kong, concealed-kong
and upgraded-kong branches above, each of which validates before any state is
built. -/
def declare_action (gs : GameState) (player_id : String)
    (action_type : ActionType) (target_tile : Tile)
    (discard_player_id : Option String := none) : Except Err GameState :=
  if gs.game_phase ≠ .PLAYING then .error .invalidGameState
  else
    match gs.players.findIdx? (fun pl => pl.player_id == player_id) with
    | none => .error .valueErr
    | some player_index =>
      match gs.players.get? player_index with
      | none => .error .valueErr
      | some player =>
        if action_type = .PASS then .ok gs
        else if player.is_hu = true ∧ (action_type = .PONG ∨
            action_type = .KONG_EXPOSED ∨ action_type = .KONG_CONCEALED ∨
            action_type = .KONG_UPGRADE) then
          .error .invalidAction
        else if action_type = .HU then
          declareHu gs player_index player target_tile
        else if action_type = .PONG then
          declarePong gs player_index player target_tile
        else if action_type = .KONG ∨ action_type = .KONG_EXPOSED then
          declareKongExposed gs player_index player player_id action_type
            target_tile discard_player_id
        else if action_type = .KONG_CONCEALED then
          declareKongConcealed gs player_index player player_id target_tile
        else if action_type = .KONG_UPGRADE then
          declareKongUpgrade gs player_index player player_id target_tile
        else .error .invalidAction

/-- Embeds `PlayerActions.process_responses` (player_actions.py lines
80-115): sort the responses by priority (stable, descending), take the first;
when its action is PASS let the next player draw, otherwise apply the
selected responder's declared action.  `sorted_responses[0]` on an empty list
raises `IndexError`. -/
def process_responses (gs : GameState) (responses : List PlayerResponse)
    (discard_player_id : String) : Except Err GameState :=
  match sortResponsesDesc responses with
  | [] => .error .indexErr
  | highest :: _ =>
    if highest.action_type = .PASS then next_player_draw gs
    else declare_action gs highest.player_id highest.action_type
      highest.target_tile (some discard_player_id)

/-- Embeds `PlayerActions.discard_tile` (player_actions.py lines 329-454):
phase and turn guards, the tile-in-hand check, the must-discard-last-drawn
rule for a player who has won, the missing-suit priority rule, then the
move of the tile from the hand to the public discard pile (the raw tile is
appended) with `last_drawn_tile` cleared; with `skip_responses` false the
response round is collected and resolved immediately. -/
def discard_tile (gs : GameState) (player_id : String) (tile : Tile)
    (skip_responses : Bool := false) : Except Err GameState :=
  if gs.game_phase ≠ .PLAYING then .error .invalidGameState
  else
    match gs.players.get? gs.current_player_index with
    | none => .error .indexErr
    | some current_player =>
      if current_player.player_id ≠ player_id then .error .invalidAction
      else if tile ∉ current_player.hand then .error .invalidAction
      else if current_player.is_hu = true ∧
          current_player.last_drawn_tile ≠ none ∧
          current_player.last_drawn_tile ≠ some tile then
        .error .invalidAction
      else if (∃ ms, current_player.missing_suit = some ms ∧
          (current_player.hand.any fun t => t.suit = ms) ∧ tile.suit ≠ ms) then
        .error .invalidAction
      else
        let temp_state := { gs with
          players := gs.players.set gs.current_player_index
            { current_player with
                hand := current_player.hand.erase tile
                last_drawn_tile := none }
          public_discards := gs.public_discards ++ [tile] }
        if skip_responses then .ok temp_state
        else
          process_responses temp_state
            (collect_ai_responses temp_state tile player_id) player_id

/-- Embeds `PlayerActions.bury_cards` (player_actions.py lines 252-326):
phase guard, player lookup, exactly 3 same-suit tiles all present in the
hand; on success the tiles move to `buried_cards`, `missing_suit` is set, and
when every player has buried the phase advances to PLAYING. -/
def bury_cards (gs : GameState) (player_id : String) (tiles : List Tile) :
    Except Err GameState :=
  if gs.game_phase ≠ .BURYING then .error .invalidGameState
  else
    match gs.players.findIdx? (fun pl => pl.player_id == player_id) with
    | none => .error .valueErr
    | some player_index =>
      match gs.players.get? player_index with
      | none => .error .valueErr
      | some player =>
        match tiles with
        | [a, b, c] =>
          if ¬ (b.suit = a.suit ∧ c.suit = a.suit) then .error .invalidAction
          else if ¬ ([a, b, c].dedup.all fun t =>
              [a, b, c].count t ≤ player.hand.count t) then
            .error .invalidAction
          else
            let new_hand := ((player.hand.erase a).erase b).erase c
            let new_players := gs.players.set player_index
              { player with
                  missing_suit := some a.suit
                  buried_cards := [a, b, c]
                  hand := new_hand }
            let new_phase := if new_players.all fun pl =>
                pl.missing_suit ≠ none then GamePhase.PLAYING
              else gs.game_phase
            .ok { gs with players := new_players, game_phase := new_phase }
        | _ => .error .invalidAction

end PlayerActions

namespace GameManager

/-- Ascending stable insertion by the `(suit.value, rank)` key, embedding
Python's stable `sorted(hand, key=lambda t: (t.suit.value, t.rank))`. -/
def insertTile (t : Tile) : List Tile → List Tile
  | [] => [t]
  | x :: xs => if keyLeB t x then t :: x :: xs else x :: insertTile t xs

/-- Stable sort of a hand by `(suit.value, rank)`. -/
def sortTiles (l : List Tile) : List Tile := l.foldr insertTile []

/-- The 108-tile wall built by `start_game`: 3 suits, ranks 1-9, 4 copies. -/
def fullWall : List Tile :=
  ([Suit.TONG, Suit.TIAO, Suit.WAN].map fun s =>
    ((List.range 9).map fun r => List.replicate 4 (⟨s, r + 1⟩ : Tile)).flatten).flatten

/-- The dealing loop of `start_game`: seat 0 takes 14 tiles, every other seat
13, each hand sorted canonically, the wall shrinking as it goes. -/
def dealHands : List Player → List Tile → Nat → (List Player × List Tile)
  | [], wall, _ => ([], wall)
  | pl :: rest, wall, i =>
    let num := if i = 0 then 14 else 13
    let dealt := { pl with hand := sortTiles (wall.take num) }
    let r := dealHands rest (wall.drop num) (i + 1)
    (dealt :: r.1, r.2)

/-- Embeds `GameManager.create_game` (game_manager.py lines 45-59): exactly 4
player ids, each player built with the dataclass defaults (score 100, empty
hand).  The random 8-hex-character game id is supplied as `gid`. -/
def create_game (gid : String) (player_ids : List String) :
    Except Err GameState :=
  if player_ids.length ≠ 4 then .error .valueErr
  else .ok { game_id := gid, players := player_ids.map fun pid => { player_id := pid } }

/-- Embeds `GameManager.start_game` (game_manager.py lines 62-94): PREPARING
phase guard, build and shuffle the 108-tile wall, deal 14/13/13/13 sorted
hands, advance to BURYING.  The in-place `random.shuffle` is modelled by the
`shuffledWall` argument (the wall contents after shuffling); like `end_game`,
the Python function mutates its argument in place, which `inputAfter` below
records. -/
def start_game (gs : GameState) (shuffledWall : List Tile) :
    Except Err GameState :=
  if gs.game_phase ≠ .PREPARING then .error .invalidGameState
  else
    let dealt := dealHands gs.players shuffledWall 0
    .ok { gs with
      players := dealt.1
      wall := dealt.2
      game_phase := .BURYING }

end GameManager

/-- One invocation of an engine operation, with the request data it carries.
`startOp` carries the shuffled wall (the outcome of `random.shuffle`) and
`resolveOp` the response list being arbitrated. -/
inductive EngineOp
  | startOp (shuffledWall : List Tile)
  | buryOp (player_id : String) (tiles : List Tile)
  | discardOp (player_id : String) (tile : Tile) (skip_responses : Bool)
  | resolveOp (responses : List PlayerResponse) (discard_player_id : String)
  | declareOp (player_id : String) (action_type : ActionType)
      (target_tile : Tile) (discard_player_id : Option String)
  | endOp
deriving DecidableEq, Repr

/-- Dispatch of an engine operation to its embedded service function. -/
def applyOp : EngineOp → GameState → Except Err GameState
  | .startOp w, gs => GameManager.start_game gs w
  | .buryOp pid tiles, gs => PlayerActions.bury_cards gs pid tiles
  | .discardOp pid tile skip, gs => PlayerActions.discard_tile gs pid tile skip
  | .resolveOp rs did, gs => PlayerActions.process_responses gs rs did
  | .declareOp pid at_ tt did, gs => PlayerActions.declare_action gs pid at_ tt did
  | .endOp, gs => .ok (PlayerActions.endGame gs)

/-- The state the caller's reference to the input `GameState` denotes after
the call, read off from the source's mutation behaviour: `bury_cards`,
`discard_tile` and `declare_action` build every new structure with
`dataclasses.replace` and fresh lists, never writing to the input, so the
prior snapshot survives (`discard_tile` hands a fresh copy, and
`declare_action`'s empty-wall hu branch a fresh `temp_state`, to any
downstream `end_game`); `start_game` assigns `game_state.wall`, each
`player.hand` and `game_state.game_phase` on its argument and `end_game`
assigns `game_state.game_phase`, both returning the same object, so on
success the caller's reference denotes the result (on the failing phase guard
`start_game` raises before any assignment); and `process_responses`, when the
selected candidate is a pass and the wall is empty, calls
`_next_player_draw(game_state)` which returns
`GameManager.end_game(game_state)` on the very input object
(player_actions.py lines 106 and 135-139, game_manager.py line 124), so in
that one case the caller's reference is mutated to the ended state — on
every other resolve path only fresh copies are built. -/

def inputAfter : EngineOp → GameState → GameState
  | .startOp w, gs =>
    match GameManager.start_game gs w with
    | .ok gs' => gs'
    | .error _ => gs
  | .endOp, gs => PlayerActions.endGame gs
  | .resolveOp rs _, gs =>
    match PlayerActions.sortResponsesDesc rs with
    | [] => gs
    | highest :: _ =>
      if highest.action_type = .PASS ∧ gs.wall = [] then
        PlayerActions.endGame gs
      else gs
  | _, gs => gs

/-- The operations whose Python implementation can mutate the `GameState` it
is given (field assignment on the argument rather than `replace`): `start`
and `end` always assign on success, and `resolveResponses` reaches
`end_game` on its input when every candidate passed and the wall is empty. -/
def mutatesInPlace : EngineOp → Bool
  | .startOp _ => true
  | .endOp => true
  | .resolveOp _ _ => true
  | _ => false

/-- Run a sequence of engine operations, stopping at the first error. -/
def runOps : List EngineOp → GameState → Except Err GameState
  | [], gs => .ok gs
  | op :: rest, gs =>
    match applyOp op gs with
    | .error e => .error e
    | .ok gs' => runOps rest gs'

namespace Scorer

/-- Embeds `Scorer._check_only_triplets` (scorer.py lines 144-168): consume
the count table using only quads and triplets, taking the first remaining
tile value each step.  Fuel as in `check_sets`.  The Python iterates the
count table in key-insertion order while the list embedding takes the list
head; after a partial removal these orders can differ, but the outcome is
order-independent because quads and triplets never span tile values. -/
def checkOnlyTripletsFuel : Nat → List Tile → Bool
  | 0, ts => ts.isEmpty
  | _ + 1, [] => true
  | n + 1, a :: rest =>
    let c := (a :: rest).count a
    (decide (4 ≤ c) && checkOnlyTripletsFuel n (removeN (a :: rest) a 4)) ||
    (decide (3 ≤ c) && checkOnlyTripletsFuel n (removeN (a :: rest) a 3))

/-- Wrapper for `Scorer._check_only_triplets` with the fuel fixed to the tile count. -/
def check_only_triplets (ts : List Tile) : Bool :=
  checkOnlyTripletsFuel ts.length ts

/-- Embeds `Scorer._check_all_triplets` (scorer.py lines 113-142): some pair
removal leaves a remainder decomposable into triplets/quads only. -/
def check_all_triplets (ts : List Tile) : Bool :=
  ts.dedup.any fun t =>
    decide (2 ≤ ts.count t) && check_only_triplets (removeN ts t 2)

/-- The 带根 count of `_calculate_fan`: tile values present exactly 4 times. -/
def countQuads (ts : List Tile) : Int :=
  ((ts.dedup.filter fun t => ts.count t = 4).length : Int)

/-- Embeds `Scorer._calculate_fan` (scorer.py lines 42-109).  Base 1; +5 when
`is_tian_hu` or `is_di_hu`; the all-triplets / pure-suit pattern ladder
(金钩钓/清对/对对胡/清一色); +1 per root quad; +1 when no meld is open;
+1 for each of the self-drawn / kong-flower / last-tile flags. -/
def calculate_fan (player : Player) (extra_tile : Option Tile)
    (is_self_drawn is_kong_flower is_last_tile is_tian_hu is_di_hu : Bool) :
    Int :=
  let all_tiles := gatherTiles player extra_tile
  let tianDi : Int := if is_tian_hu || is_di_hu then 5 else 0
  let is_all_triplets := check_all_triplets all_tiles
  let is_pure_suit := (all_tiles.map Tile.suit).dedup.length = 1
  let pattern : Int :=
    if is_all_triplets then
      if player.hand.length = 1 ∨ (player.hand.length = 0 ∧ extra_tile ≠ none) then
        if is_pure_suit then 4 else 1
      else if is_pure_suit then 3
      else 1
    else if is_pure_suit then 2
    else 0
  let gen_count := countQuads all_tiles
  let menqing : Int :=
    if player.melds.any fun m => m.is_concealed = false then 0 else 1
  let addi : Int := (if is_self_drawn then 1 else 0) +
    (if is_kong_flower then 1 else 0) + (if is_last_tile then 1 else 0)
  1 + tianDi + pattern + gen_count + menqing + addi

/-- Embeds `Scorer.calculate_score` (scorer.py lines 11-39): the per-player
payment equals the fan total directly. -/
def calculate_score (player : Player) (extra_tile : Option Tile)
    (is_self_drawn is_kong_flower is_last_tile is_tian_hu is_di_hu : Bool) :
    Int :=
  calculate_fan player extra_tile is_self_drawn is_kong_flower is_last_tile
    is_tian_hu is_di_hu

/-- Modelled from the spec, for comparison with `calculate_fan`: the §4.2
tier table read literally as mutually exclusive rows with the single highest
applicable row chosen — immediate win +5, then the all-groups-are-sets /
single-wait / single-suit combinations — plus the base and the additive
bonuses. -/
def specTierFan (player : Player) (extra_tile : Option Tile)
    (is_self_drawn is_kong_flower is_last_tile is_tian_hu is_di_hu : Bool) :
    Int :=
  let all_tiles := gatherTiles player extra_tile
  let allSets := check_all_triplets all_tiles
  let singleSuit := (all_tiles.map Tile.suit).dedup.length = 1
  let singleWait :=
    player.hand.length = 1 ∨ (player.hand.length = 0 ∧ extra_tile ≠ none)
  let tier : Int :=
    if is_tian_hu || is_di_hu then 5
    else if allSets = true ∧ singleWait ∧ singleSuit then 4
    else if allSets = true ∧ singleWait then 1
    else if allSets = true ∧ singleSuit then 3
    else if allSets = true then 1
    else if singleSuit then 2
    else 0
  let gen_count := countQuads all_tiles
  let menqing : Int :=
    if player.melds.any fun m => m.is_concealed = false then 0 else 1
  let addi : Int := (if is_self_drawn then 1 else 0) +
    (if is_kong_flower then 1 else 0) + (if is_last_tile then 1 else 0)
  1 + tier + gen_count + menqing + addi

end Scorer

/-- The 4-player table of the §8 settlement scenario: ids A-D, default
scores 100. -/
def kongScenarioPlayers : List Player :=
  [{ player_id := "A" }, { player_id := "B" },
   { player_id := "C" }, { player_id := "D" }]

/-- A tiny game in PLAYING phase where seat A can hu on the discarded 1 of
characters: hand `[W1]` plus the claimed `W1` form the winning pair. -/
def huWitnessState : GameState :=
  { game_id := "g"
    players := [
      { player_id := "A", hand := [⟨Suit.WAN, 1⟩] },
      { player_id := "B" },
      { player_id := "C" },
      { player_id := "D" }]
    current_player_index := 0
    wall := [⟨Suit.TONG, 5⟩]
    game_phase := .PLAYING }

/-- A game in PLAYING phase used to exhibit the in-place mutation of
`end_game` on its argument. -/
def c9PlayingState : GameState := { game_id := "g", game_phase := .PLAYING }

/-- A pure-suit all-triplets winning hand: pair of W1 plus four triplets. -/
def tianHuPlayer : Player :=
  { player_id := "A"
    hand := [⟨Suit.WAN, 1⟩, ⟨Suit.WAN, 1⟩,
      ⟨Suit.WAN, 2⟩, ⟨Suit.WAN, 2⟩, ⟨Suit.WAN, 2⟩,
      ⟨Suit.WAN, 3⟩, ⟨Suit.WAN, 3⟩, ⟨Suit.WAN, 3⟩,
      ⟨Suit.WAN, 4⟩, ⟨Suit.WAN, 4⟩, ⟨Suit.WAN, 4⟩,
      ⟨Suit.WAN, 5⟩, ⟨Suit.WAN, 5⟩, ⟨Suit.WAN, 5⟩] }

/-- The per-player candidate rule as the claim words it: hu when the player's
tiles win with the discard; otherwise, for a player who has not won, exposed
kong on at least 3 matching hand tiles, else pong on at least 2, else pass; a
player who has won gets hu or pass only; priorities hu=3, kong=2, pong=1,
pass=0. -/
def specResponseFor (pl : Player) (t : Tile) : PlayerResponse :=
  let a : ActionType :=
    if WinChecker.is_hu pl (some t) then .HU
    else if pl.is_hu = false ∧ 3 ≤ pl.hand.count t then .KONG_EXPOSED
    else if pl.is_hu = false ∧ 2 ≤ pl.hand.count t then .PONG
    else .PASS
  { player_id := pl.player_id
    action_type := a
    target_tile := t
    priority :=
      if a = .HU then 3 else if a = .KONG_EXPOSED then 2
      else if a = .PONG then 1 else 0 }

/-- A PLAYING state whose seats are the production ids: the human holds a
pair of the discarded tile (could pong) and is not the discarder. -/
def c5State : GameState :=
  { game_id := "g"
    players := [
      { player_id := "human", hand := [⟨Suit.WAN, 1⟩, ⟨Suit.WAN, 1⟩] },
      { player_id := "ai_1" },
      { player_id := "ai_2" },
      { player_id := "ai_3" }]
    game_phase := .PLAYING }

/-- The §8 arbitration scenario: `ai_1` discards the 1 of characters; `ai_2`
holds two matching tiles (a pong candidate) and `ai_3` wins on it (a hu
candidate). -/
def c6State : GameState :=
  { game_id := "g"
    players := [
      { player_id := "ai_1" },
      { player_id := "ai_2", hand := [⟨Suit.WAN, 1⟩, ⟨Suit.WAN, 1⟩] },
      { player_id := "ai_3", hand := [⟨Suit.WAN, 1⟩] },
      { player_id := "ai_4" }]
    current_player_index := 0
    wall := [⟨Suit.TONG, 5⟩]
    game_phase := .PLAYING }

/-- A PLAYING state where seat A discards the 1 of characters. -/
def c8State : GameState :=
  { game_id := "g"
    players := [
      { player_id := "A", hand := [⟨Suit.WAN, 1⟩, ⟨Suit.WAN, 2⟩],
        last_drawn_tile := some ⟨Suit.WAN, 2⟩ },
      { player_id := "B" },
      { player_id := "C" },
      { player_id := "D" }]
    current_player_index := 0
    game_phase := .PLAYING }

theorem keyLeB_iff (a b : Tile) : keyLeB a b = true ↔ KeyLE a b := by
  simp [keyLeB, KeyLE]

theorem keyLE_total (a b : Tile) : KeyLE a b ∨ KeyLE b a := by
  rcases Nat.lt_trichotomy a.suit.val b.suit.val with h | h | h
  · exact Or.inl (Or.inl h)
  · rcases Nat.le_total a.rank b.rank with h' | h'
    · exact Or.inl (Or.inr ⟨h, h'⟩)
    · exact Or.inr (Or.inr ⟨h.symm, h'⟩)
  · exact Or.inr (Or.inl h)

theorem keyLE_refl (a : Tile) : KeyLE a a := by
  unfold KeyLE
  omega

theorem keyLE_trans {a b c : Tile} (h1 : KeyLE a b) (h2 : KeyLE b c) : KeyLE a c := by
  unfold KeyLE at *
  omega

theorem minTile_mem (a : Tile) (ts : List Tile) : minTile a ts ∈ a :: ts := by
  induction ts generalizing a with
  | nil => simp [minTile]
  | cons b bs ih =>
    simp only [minTile, List.foldl_cons]
    by_cases h : keyLeB a b
    · rw [if_pos h]
      have h' := ih a
      unfold minTile at h'
      rcases List.mem_cons.mp h' with h1 | h1
      · rw [h1]
        exact List.mem_cons_self _ _
      · exact List.mem_cons_of_mem _ (List.mem_cons_of_mem _ h1)
    · rw [if_neg h]
      have h' := ih b
      unfold minTile at h'
      rcases List.mem_cons.mp h' with h1 | h1
      · rw [h1]
        exact List.mem_cons_of_mem _ (List.mem_cons_self _ _)
      · exact List.mem_cons_of_mem _ (List.mem_cons_of_mem _ h1)

theorem minTile_min (a : Tile) (ts : List Tile) :
    ∀ x ∈ a :: ts, KeyLE (minTile a ts) x := by
  induction ts generalizing a with
  | nil =>
    intro x hx
    rw [List.mem_singleton] at hx
    subst hx
    exact keyLE_refl _
  | cons b bs ih =>
    intro x hx
    have hfold : minTile a (b :: bs) = minTile (if keyLeB a b then a else b) bs := by
      simp [minTile]
    have hm_a : KeyLE (if keyLeB a b then a else b) a := by
      by_cases h : keyLeB a b
      · rw [if_pos h]; exact keyLE_refl _
      · rw [if_neg h]
        rcases keyLE_total a b with hab | hba
        · exact absurd ((keyLeB_iff a b).mpr hab) h
        · exact hba
    have hm_b : KeyLE (if keyLeB a b then a else b) b := by
      by_cases h : keyLeB a b
      · rw [if_pos h]; exact (keyLeB_iff a b).mp h
      · rw [if_neg h]; exact keyLE_refl _
    have hmin_m : KeyLE (minTile (if keyLeB a b then a else b) bs)
        (if keyLeB a b then a else b) :=
      ih (if keyLeB a b then a else b) _ (List.mem_cons_self _ _)
    rw [hfold]
    rcases List.mem_cons.mp hx with hxa | hx'
    · subst hxa
      exact keyLE_trans hmin_m hm_a
    · rcases List.mem_cons.mp hx' with hxb | hx''
      · subst hxb
        exact keyLE_trans hmin_m hm_b
      · exact ih (if keyLeB a b then a else b) x (List.mem_cons_of_mem _ hx'')

theorem removeN_length {ts : List Tile} {t : Tile} {k : Nat}
    (h : k ≤ ts.count t) : (removeN ts t k).length = ts.length - k := by
  induction k generalizing ts with
  | zero => simp [removeN]
  | succ n ih =>
    have hmem : t ∈ ts := by
      have : 0 < ts.count t := Nat.lt_of_lt_of_le (Nat.succ_pos n) h
      exact List.count_pos_iff.mp this
    have hcount : n ≤ (ts.erase t).count t := by
      rw [List.count_erase_self]
      omega
    simp only [removeN]
    rw [ih hcount, List.length_erase_of_mem hmem]
    omega

theorem removeN_count_self {ts : List Tile} {t : Tile} {k : Nat} :
    (removeN ts t k).count t = ts.count t - k := by
  induction k generalizing ts with
  | zero => simp [removeN]
  | succ n ih =>
    simp only [removeN]
    rw [ih, List.count_erase_self]
    omega

theorem removeN_count_other {ts : List Tile} {t x : Tile} {k : Nat} (h : x ≠ t) :
    (removeN ts t k).count x = ts.count x := by
  induction k generalizing ts with
  | zero => simp [removeN]
  | succ n ih =>
    simp only [removeN]
    rw [ih, List.count_erase_of_ne h]

namespace WinChecker

theorem checkSetsFuel_nil (n : Nat) : checkSetsFuel n [] = true := by
  cases n <;> simp [checkSetsFuel, List.isEmpty]

theorem tileSucc_ne (t : Tile) : tileSucc t ≠ t := by
  intro h
  have := congrArg Tile.rank h
  simp [tileSucc] at this

theorem tileSucc_succ_ne (t : Tile) : tileSucc (tileSucc t) ≠ t := by
  intro h
  have := congrArg Tile.rank h
  simp [tileSucc] at this
  omega

theorem length_erase_le (ts : List Tile) (t : Tile) : (ts.erase t).length ≤ ts.length := by
  by_cases h : t ∈ ts
  · rw [List.length_erase_of_mem h]
    omega
  · rw [List.erase_of_not_mem h]

theorem removeN_length_le (ts : List Tile) (t : Tile) (k : Nat) :
    (removeN ts t k).length ≤ ts.length := by
  induction k generalizing ts with
  | zero => simp [removeN]
  | succ n ih =>
    simp only [removeN]
    exact Nat.le_trans (ih _) (length_erase_le ts t)

theorem removeN_length_lt {ts : List Tile} {t : Tile} {k : Nat}
    (hmem : t ∈ ts) (hk : 1 ≤ k) : (removeN ts t k).length < ts.length := by
  cases k with
  | zero => omega
  | succ n =>
    simp only [removeN]
    calc (removeN (ts.erase t) t n).length ≤ (ts.erase t).length := removeN_length_le _ _ _
      _ < ts.length := by
          rw [List.length_erase_of_mem hmem]
          exact Nat.sub_lt (List.length_pos.mpr (List.ne_nil_of_mem hmem)) Nat.one_pos

theorem checkSetsFuel_congr :
    ∀ n m ts, ts.length ≤ n → ts.length ≤ m →
      checkSetsFuel n ts = checkSetsFuel m ts := by
  intro n
  induction n with
  | zero =>
    intro m ts hn _
    have : ts = [] := List.length_eq_zero.mp (Nat.le_zero.mp hn)
    subst this
    rw [checkSetsFuel_nil, checkSetsFuel_nil]
  | succ n ih =>
    intro m ts hn hm
    cases ts with
    | nil => rw [checkSetsFuel_nil, checkSetsFuel_nil]
    | cons a rest =>
      cases m with
      | zero => simp at hm
      | succ m' =>
        have hmin : minTile a rest ∈ a :: rest := minTile_mem a rest
        have hq : (removeN (a :: rest) (minTile a rest) 4).length < (a :: rest).length :=
          removeN_length_lt hmin (by omega)
        have ht : (removeN (a :: rest) (minTile a rest) 3).length < (a :: rest).length :=
          removeN_length_lt hmin (by omega)
        have hs : ((((a :: rest).erase (minTile a rest)).erase
            (tileSucc (minTile a rest))).erase
            (tileSucc (tileSucc (minTile a rest)))).length < (a :: rest).length := by
          calc ((((a :: rest).erase (minTile a rest)).erase
              (tileSucc (minTile a rest))).erase
              (tileSucc (tileSucc (minTile a rest)))).length
              ≤ (((a :: rest).erase (minTile a rest)).erase
                (tileSucc (minTile a rest))).length := length_erase_le _ _
            _ ≤ ((a :: rest).erase (minTile a rest)).length := length_erase_le _ _
            _ < (a :: rest).length := by
                rw [List.length_erase_of_mem hmin]
                simp
        simp only [checkSetsFuel]
        rw [ih m' (removeN (a :: rest) (minTile a rest) 4) (by omega) (by omega),
          ih m' (removeN (a :: rest) (minTile a rest) 3) (by omega) (by omega),
          ih m' ((((a :: rest).erase (minTile a rest)).erase
            (tileSucc (minTile a rest))).erase
            (tileSucc (tileSucc (minTile a rest)))) (by omega) (by omega)]

/-- One-step unfolding of `_check_sets` on a nonempty tile list, with the
recursive occurrences re-expressed through `check_sets` itself. -/
theorem check_sets_cons (a : Tile) (rest : List Tile) :
    check_sets (a :: rest) =
      ((decide (4 ≤ (a :: rest).count (minTile a rest)) &&
          check_sets (removeN (a :: rest) (minTile a rest) 4)) ||
        (decide (3 ≤ (a :: rest).count (minTile a rest)) &&
          check_sets (removeN (a :: rest) (minTile a rest) 3)) ||
        (decide (1 ≤ (a :: rest).count (minTile a rest)) &&
          decide (1 ≤ (a :: rest).count (tileSucc (minTile a rest))) &&
          decide (1 ≤ (a :: rest).count (tileSucc (tileSucc (minTile a rest)))) &&
          check_sets ((((a :: rest).erase (minTile a rest)).erase
            (tileSucc (minTile a rest))).erase
            (tileSucc (tileSucc (minTile a rest)))))) := by
  have hmin : minTile a rest ∈ a :: rest := minTile_mem a rest
  have hq : (removeN (a :: rest) (minTile a rest) 4).length < (a :: rest).length :=
    removeN_length_lt hmin (by omega)
  have ht : (removeN (a :: rest) (minTile a rest) 3).length < (a :: rest).length :=
    removeN_length_lt hmin (by omega)
  have hs : ((((a :: rest).erase (minTile a rest)).erase
      (tileSucc (minTile a rest))).erase
      (tileSucc (tileSucc (minTile a rest)))).length < (a :: rest).length := by
    calc ((((a :: rest).erase (minTile a rest)).erase
        (tileSucc (minTile a rest))).erase
        (tileSucc (tileSucc (minTile a rest)))).length
        ≤ (((a :: rest).erase (minTile a rest)).erase
          (tileSucc (minTile a rest))).length := length_erase_le _ _
      _ ≤ ((a :: rest).erase (minTile a rest)).length := length_erase_le _ _
      _ < (a :: rest).length := by
          rw [List.length_erase_of_mem hmin]
          exact Nat.sub_lt (List.length_pos.mpr (List.ne_nil_of_mem hmin)) Nat.one_pos
  have hlen : (a :: rest).length = rest.length + 1 := rfl
  show checkSetsFuel (a :: rest).length (a :: rest) = _
  rw [hlen]
  simp only [checkSetsFuel, check_sets]
  rw [checkSetsFuel_congr rest.length (removeN (a :: rest) (minTile a rest) 4).length _
      (by omega) (by omega),
    checkSetsFuel_congr rest.length (removeN (a :: rest) (minTile a rest) 3).length _
      (by omega) (by omega),
    checkSetsFuel_congr rest.length ((((a :: rest).erase (minTile a rest)).erase
      (tileSucc (minTile a rest))).erase
      (tileSucc (tileSucc (minTile a rest)))).length _
      (by omega) (by omega)]

theorem le_sum_of_mem {gl : List (Multiset Tile)} {g : Multiset Tile}
    (h : g ∈ gl) : g ≤ gl.sum := by
  induction gl with
  | nil => simp at h
  | cons x xs ih =>
    rcases List.mem_cons.mp h with h1 | h1
    · subst h1
      simp only [List.sum_cons]
      exact Multiset.le_add_right _ _
    · simp only [List.sum_cons]
      exact le_trans (ih h1) (Multiset.le_add_left _ _)

theorem mem_sum_exists {gl : List (Multiset Tile)} {a : Tile}
    (h : a ∈ gl.sum) : ∃ g ∈ gl, a ∈ g := by
  induction gl with
  | nil => simp at h
  | cons x xs ih =>
    simp only [List.sum_cons, Multiset.mem_add] at h
    rcases h with h | h
    · exact ⟨x, List.mem_cons_self _ _, h⟩
    · obtain ⟨g, hg, hag⟩ := ih h
      exact ⟨g, List.mem_cons_of_mem _ hg, hag⟩

theorem sum_eq_add_sum_erase {gl : List (Multiset Tile)} {g : Multiset Tile}
    (h : g ∈ gl) : gl.sum = g + (gl.erase g).sum := by
  have hperm : List.Perm gl (g :: gl.erase g) := List.perm_cons_erase h
  rw [hperm.sum_eq, List.sum_cons]

theorem coe_removeN (l : List Tile) (t : Tile) (k : Nat) :
    ((removeN l t k : List Tile) : Multiset Tile) =
      (l : Multiset Tile) - Multiset.replicate k t := by
  induction k generalizing l with
  | zero => simp [removeN]
  | succ n ih =>
    simp only [removeN]
    rw [ih]
    have h1 : ((l.erase t : List Tile) : Multiset Tile) =
        (l : Multiset Tile) - {t} := by
      rw [← Multiset.coe_erase, Multiset.sub_singleton]
    rw [h1, tsub_tsub, Multiset.replicate_succ, ← Multiset.singleton_add]

theorem count_seqOf_self (t : Tile) : (seqOf t).count t = 1 := by
  simp only [seqOf, Multiset.insert_eq_cons, Multiset.count_cons_self,
    Multiset.count_cons, Multiset.count_singleton]
  have h1 : ¬ (t = tileSucc t) := fun h => tileSucc_ne t h.symm
  have h2 : ¬ (t = tileSucc (tileSucc t)) := fun h => tileSucc_succ_ne t h.symm
  simp [h1, h2]

theorem count_seqOf_one (t : Tile) : (seqOf t).count (tileSucc t) = 1 := by
  simp only [seqOf, Multiset.insert_eq_cons, Multiset.count_cons,
    Multiset.count_singleton]
  have h1 : ¬ (tileSucc t = t) := tileSucc_ne t
  have h2 : ¬ (tileSucc t = tileSucc (tileSucc t)) :=
    fun h => tileSucc_ne (tileSucc t) h.symm
  simp [h1, h2]

theorem count_seqOf_two (t : Tile) :
    (seqOf t).count (tileSucc (tileSucc t)) = 1 := by
  simp only [seqOf, Multiset.insert_eq_cons, Multiset.count_cons,
    Multiset.count_singleton]
  have h1 : ¬ (tileSucc (tileSucc t) = t) := tileSucc_succ_ne t
  have h2 : ¬ (tileSucc (tileSucc t) = tileSucc t) := tileSucc_ne (tileSucc t)
  simp [h1, h2]

theorem count_seqOf_other (t x : Tile) (h0 : x ≠ t) (h1 : x ≠ tileSucc t)
    (h2 : x ≠ tileSucc (tileSucc t)) : (seqOf t).count x = 0 := by
  simp only [seqOf, Multiset.insert_eq_cons, Multiset.count_cons,
    Multiset.count_singleton]
  simp [h0, h1, h2]

theorem coe_eraseSeq (l : List Tile) (t : Tile) :
    ((((l.erase t).erase (tileSucc t)).erase (tileSucc (tileSucc t)) :
        List Tile) : Multiset Tile) =
      (l : Multiset Tile) - seqOf t := by
  have h1 : ∀ (xs : List Tile) (y : Tile),
      ((xs.erase y : List Tile) : Multiset Tile) = (xs : Multiset Tile) - {y} := by
    intro xs y
    rw [← Multiset.coe_erase, Multiset.sub_singleton]
  rw [h1, h1, h1, tsub_tsub, tsub_tsub]
  congr 1

theorem replicate_le_coe {ts : List Tile} {t : Tile} {k : Nat}
    (h : k ≤ ts.count t) : Multiset.replicate k t ≤ (ts : Multiset Tile) := by
  rw [Multiset.le_iff_count]
  intro x
  by_cases hx : x = t
  · subst hx
    rw [Multiset.count_replicate_self, Multiset.coe_count]
    exact h
  · rw [Multiset.count_replicate, if_neg (fun h' => hx h'.symm)]
    omega

theorem seqOf_le_coe {ts : List Tile} {t : Tile}
    (h0 : 1 ≤ ts.count t) (h1 : 1 ≤ ts.count (tileSucc t))
    (h2 : 1 ≤ ts.count (tileSucc (tileSucc t))) :
    seqOf t ≤ (ts : Multiset Tile) := by
  rw [Multiset.le_iff_count]
  intro x
  rw [Multiset.coe_count]
  by_cases e0 : x = t
  · subst e0
    rw [count_seqOf_self]
    exact h0
  by_cases e1 : x = tileSucc t
  · subst e1
    rw [count_seqOf_one]
    exact h1
  by_cases e2 : x = tileSucc (tileSucc t)
  · subst e2
    rw [count_seqOf_two]
    exact h2
  rw [count_seqOf_other t x e0 e1 e2]
  omega

theorem check_sets_sound : ∀ (n : Nat) (ts : List Tile), ts.length ≤ n →
    check_sets ts = true → GroupsDecomp ((ts : List Tile) : Multiset Tile) := by
  intro n
  induction n with
  | zero =>
    intro ts hn _
    have he : ts = [] := List.length_eq_zero.mp (Nat.le_zero.mp hn)
    subst he
    exact ⟨[], by simp, by simp⟩
  | succ n ih =>
    intro ts hn hcs
    cases ts with
    | nil => exact ⟨[], by simp, by simp⟩
    | cons a rest =>
      rw [check_sets_cons] at hcs
      simp only [Bool.or_eq_true, Bool.and_eq_true, decide_eq_true_eq] at hcs
      have hmin_mem : minTile a rest ∈ a :: rest := minTile_mem a rest
      rcases hcs with (⟨h4, hrec⟩ | ⟨h3, hrec⟩) | ⟨⟨⟨h0, hs1⟩, hs2⟩, hrec⟩
      · -- quad at the minimum
        have hlt : (removeN (a :: rest) (minTile a rest) 4).length < (a :: rest).length :=
          removeN_length_lt hmin_mem (by omega)
        obtain ⟨gl, hgl, hsum⟩ := ih _ (by omega) hrec
        refine ⟨Multiset.replicate 4 (minTile a rest) :: gl, ?_, ?_⟩
        · intro g hg
          rcases List.mem_cons.mp hg with h | h
          · subst h
            exact IsGroup.quad _
          · exact hgl g h
        · rw [List.sum_cons, ← hsum, coe_removeN,
            add_tsub_cancel_of_le (replicate_le_coe h4)]
      · -- triplet at the minimum
        have hlt : (removeN (a :: rest) (minTile a rest) 3).length < (a :: rest).length :=
          removeN_length_lt hmin_mem (by omega)
        obtain ⟨gl, hgl, hsum⟩ := ih _ (by omega) hrec
        refine ⟨Multiset.replicate 3 (minTile a rest) :: gl, ?_, ?_⟩
        · intro g hg
          rcases List.mem_cons.mp hg with h | h
          · subst h
            exact IsGroup.triplet _
          · exact hgl g h
        · rw [List.sum_cons, ← hsum, coe_removeN,
            add_tsub_cancel_of_le (replicate_le_coe h3)]
      · -- sequence starting at the minimum
        have hlt : ((((a :: rest).erase (minTile a rest)).erase
            (tileSucc (minTile a rest))).erase
            (tileSucc (tileSucc (minTile a rest)))).length < (a :: rest).length := by
          calc ((((a :: rest).erase (minTile a rest)).erase
              (tileSucc (minTile a rest))).erase
              (tileSucc (tileSucc (minTile a rest)))).length
              ≤ (((a :: rest).erase (minTile a rest)).erase
                (tileSucc (minTile a rest))).length := length_erase_le _ _
            _ ≤ ((a :: rest).erase (minTile a rest)).length := length_erase_le _ _
            _ < (a :: rest).length := by
                rw [List.length_erase_of_mem hmin_mem]
                exact Nat.sub_lt (List.length_pos.mpr (List.ne_nil_of_mem hmin_mem))
                  Nat.one_pos
        obtain ⟨gl, hgl, hsum⟩ := ih _ (by omega) hrec
        refine ⟨seqOf (minTile a rest) :: gl, ?_, ?_⟩
        · intro g hg
          rcases List.mem_cons.mp hg with h | h
          · subst h
            exact IsGroup.run _
          · exact hgl g h
        · rw [List.sum_cons, ← hsum, coe_eraseSeq,
            add_tsub_cancel_of_le (seqOf_le_coe h0 hs1 hs2)]

theorem check_sets_complete : ∀ (n : Nat) (ts : List Tile), ts.length ≤ n →
    GroupsDecomp ((ts : List Tile) : Multiset Tile) → check_sets ts = true := by
  intro n
  induction n with
  | zero =>
    intro ts hn _
    have he : ts = [] := List.length_eq_zero.mp (Nat.le_zero.mp hn)
    subst he
    rfl
  | succ n ih =>
    intro ts hn hdec
    cases ts with
    | nil => rfl
    | cons a rest =>
      obtain ⟨gl, hgl, hsum⟩ := hdec
      have hmin_mem : minTile a rest ∈ a :: rest := minTile_mem a rest
      have hm : minTile a rest ∈ ((a :: rest : List Tile) : Multiset Tile) :=
        Multiset.mem_coe.mpr hmin_mem
      rw [hsum] at hm
      obtain ⟨g, hgmem, htg⟩ := mem_sum_exists hm
      have hgle : g ≤ ((a :: rest : List Tile) : Multiset Tile) := by
        rw [hsum]
        exact le_sum_of_mem hgmem
      have hrest : GroupsDecomp (((a :: rest : List Tile) : Multiset Tile) - g) := by
        refine ⟨gl.erase g, fun x hx => hgl x (List.mem_of_mem_erase hx), ?_⟩
        rw [hsum, sum_eq_add_sum_erase hgmem, add_tsub_cancel_left]
      rw [check_sets_cons]
      simp only [Bool.or_eq_true, Bool.and_eq_true, decide_eq_true_eq]
      have hcount_ge : ∀ x : Tile, g.count x ≤ (a :: rest).count x := by
        intro x
        have := Multiset.le_iff_count.mp hgle x
        rwa [Multiset.coe_count] at this
      cases hgl g hgmem with
      | triplet u =>
        have hu : minTile a rest = u := Multiset.eq_of_mem_replicate htg
        subst hu
        have h3 : 3 ≤ (a :: rest).count (minTile a rest) := by
          have := hcount_ge (minTile a rest)
          rwa [Multiset.count_replicate_self] at this
        refine Or.inl (Or.inr ⟨h3, ?_⟩)
        have hlt : (removeN (a :: rest) (minTile a rest) 3).length < (a :: rest).length :=
          removeN_length_lt hmin_mem (by omega)
        apply ih _ (by omega)
        rw [coe_removeN]
        exact hrest
      | quad u =>
        have hu : minTile a rest = u := Multiset.eq_of_mem_replicate htg
        subst hu
        have h4 : 4 ≤ (a :: rest).count (minTile a rest) := by
          have := hcount_ge (minTile a rest)
          rwa [Multiset.count_replicate_self] at this
        refine Or.inl (Or.inl ⟨h4, ?_⟩)
        have hlt : (removeN (a :: rest) (minTile a rest) 4).length < (a :: rest).length :=
          removeN_length_lt hmin_mem (by omega)
        apply ih _ (by omega)
        rw [coe_removeN]
        exact hrest
      | run u =>
        have hmem_u : u ∈ a :: rest := by
          have hu_g : u ∈ seqOf u := by
            rw [← Multiset.count_pos, count_seqOf_self]
            omega
          exact Multiset.mem_coe.mp (Multiset.mem_of_le hgle hu_g)
        have hkey : KeyLE (minTile a rest) u := minTile_min a rest u hmem_u
        have hu : minTile a rest = u := by
          simp only [seqOf, Multiset.insert_eq_cons, Multiset.mem_cons,
            Multiset.mem_singleton] at htg
          rcases htg with h | h | h
          · exact h
          · exfalso
            rw [h] at hkey
            unfold KeyLE at hkey
            simp only [tileSucc] at hkey
            omega
          · exfalso
            rw [h] at hkey
            unfold KeyLE at hkey
            simp only [tileSucc] at hkey
            omega
        subst hu
        have h0 : 1 ≤ (a :: rest).count (minTile a rest) := by
          have := hcount_ge (minTile a rest)
          rwa [count_seqOf_self] at this
        have hs1 : 1 ≤ (a :: rest).count (tileSucc (minTile a rest)) := by
          have := hcount_ge (tileSucc (minTile a rest))
          rwa [count_seqOf_one] at this
        have hs2 : 1 ≤ (a :: rest).count (tileSucc (tileSucc (minTile a rest))) := by
          have := hcount_ge (tileSucc (tileSucc (minTile a rest)))
          rwa [count_seqOf_two] at this
        refine Or.inr ⟨⟨⟨h0, hs1⟩, hs2⟩, ?_⟩
        have hlt : ((((a :: rest).erase (minTile a rest)).erase
            (tileSucc (minTile a rest))).erase
            (tileSucc (tileSucc (minTile a rest)))).length < (a :: rest).length := by
          calc ((((a :: rest).erase (minTile a rest)).erase
              (tileSucc (minTile a rest))).erase
              (tileSucc (tileSucc (minTile a rest)))).length
              ≤ (((a :: rest).erase (minTile a rest)).erase
                (tileSucc (minTile a rest))).length := length_erase_le _ _
            _ ≤ ((a :: rest).erase (minTile a rest)).length := length_erase_le _ _
            _ < (a :: rest).length := by
                rw [List.length_erase_of_mem hmin_mem]
                exact Nat.sub_lt (List.length_pos.mpr (List.ne_nil_of_mem hmin_mem))
                  Nat.one_pos
        apply ih _ (by omega)
        rw [coe_eraseSeq]
        exact hrest

/-- Correctness of `_check_sets`: it decides exactly decomposability into complete groups. -/
theorem check_sets_iff (ts : List Tile) :
    check_sets ts = true ↔ GroupsDecomp ((ts : List Tile) : Multiset Tile) :=
  ⟨check_sets_sound ts.length ts le_rfl, check_sets_complete ts.length ts le_rfl⟩

/-- Correctness of `_check_hand_structure`: it decides decomposition into
exactly one pair plus complete groups. -/
theorem check_hand_structure_iff (ts : List Tile) :
    check_hand_structure ts = true ↔
      PairPlusGroups ((ts : List Tile) : Multiset Tile) := by
  unfold check_hand_structure
  rw [List.any_eq_true]
  constructor
  · rintro ⟨t, htdedup, hcond⟩
    rw [Bool.and_eq_true, decide_eq_true_eq] at hcond
    obtain ⟨h2, hcs⟩ := hcond
    refine ⟨t, ((ts : List Tile) : Multiset Tile) - Multiset.replicate 2 t, ?_, ?_⟩
    · rw [add_tsub_cancel_of_le (replicate_le_coe h2)]
    · have := check_sets_sound _ _ le_rfl hcs
      rwa [coe_removeN] at this
  · rintro ⟨p, rest, heq, hdec⟩
    have h2 : 2 ≤ ts.count p := by
      have : Multiset.count p ((ts : List Tile) : Multiset Tile) =
          2 + Multiset.count p rest := by
        rw [heq, Multiset.count_add, Multiset.count_replicate_self]
      rw [Multiset.coe_count] at this
      omega
    have hmem : p ∈ ts := List.count_pos_iff.mp (by omega)
    refine ⟨p, List.mem_dedup.mpr hmem, ?_⟩
    rw [Bool.and_eq_true, decide_eq_true_eq]
    refine ⟨h2, ?_⟩
    apply check_sets_complete _ _ le_rfl
    rw [coe_removeN, heq, add_tsub_cancel_left]
    exact hdec

end WinChecker

theorem pairPlusGroups_not_zero : ¬ WinChecker.PairPlusGroups 0 := by
  rintro ⟨p, rest, heq, -⟩
  have hc := congrArg Multiset.card heq
  rw [Multiset.card_zero, Multiset.card_add, Multiset.card_replicate] at hc
  omega

/-- C1: for the tile multiset gathered from a player's hand, all meld tiles
and an optional extra tile, `WinChecker.is_hu` returns true if and only if no
gathered tile belongs to the player's declared missing suit (when one is
set), at most 2 distinct suits appear among the gathered tiles, and the
gathered multiset decomposes into exactly one pair plus complete groups,
every group being a triplet (3 equal), a quad (4 equal) or a sequence of 3
consecutive ranks in the same suit. -/
theorem is_hu_iff_winning_decomposition (p : Player) (extra : Option Tile) :
    WinChecker.is_hu p extra = true ↔
      ((∀ ms, p.missing_suit = some ms →
          ∀ t ∈ gatherTiles p extra, t.suit ≠ ms) ∧
        ((gatherTiles p extra).map Tile.suit).toFinset.card ≤ 2 ∧
        WinChecker.PairPlusGroups ((gatherTiles p extra : List Tile) : Multiset Tile)) := by
  unfold WinChecker.is_hu
  simp only []
  by_cases hemp : (gatherTiles p extra).isEmpty
  · rw [if_pos hemp]
    have hnil : gatherTiles p extra = [] := List.isEmpty_iff.mp hemp
    constructor
    · intro h
      exact absurd h (by simp)
    · rintro ⟨-, -, hpair⟩
      rw [hnil] at hpair
      exact absurd hpair (by exact pairPlusGroups_not_zero)
  · rw [if_neg hemp]
    rw [Bool.and_eq_true, Bool.and_eq_true]
    rw [List.card_toFinset]
    constructor
    · rintro ⟨⟨hms, hsuits⟩, hstruct⟩
      refine ⟨?_, ?_, ?_⟩
      · intro ms hmsome t ht
        rw [hmsome] at hms
        have := List.all_eq_true.mp hms t ht
        exact of_decide_eq_true this
      · exact of_decide_eq_true hsuits
      · exact (WinChecker.check_hand_structure_iff _).mp hstruct
    · rintro ⟨hms, hsuits, hpair⟩
      refine ⟨⟨?_, decide_eq_true hsuits⟩,
        (WinChecker.check_hand_structure_iff _).mpr hpair⟩
      cases hcase : p.missing_suit with
      | none => rfl
      | some ms =>
        apply List.all_eq_true.mpr
        intro t ht
        exact decide_eq_true (hms ms hcase t ht)

theorem sumScores_set {l : List Player} {i : Nat} {q pl : Player}
    (h : l.get? i = some pl) :
    sumScores (l.set i q) = sumScores l - pl.score + q.score := by
  induction l generalizing i with
  | nil => simp at h
  | cons x xs ih =>
    cases i with
    | zero =>
      simp only [List.get?] at h
      cases h
      simp only [List.set, sumScores, List.map_cons, List.sum_cons]
      ring
    | succ n =>
      simp only [List.get?] at h
      have := ih h
      simp only [List.set, sumScores, List.map_cons, List.sum_cons] at *
      omega

theorem updScore_get_self {l : List Player} {i : Nat} {pl : Player} {d : Int}
    (h : l.get? i = some pl) :
    (updScore l i d).get? i = some { pl with score := pl.score + d } := by
  unfold updScore
  rw [h]
  rw [List.get?_eq_getElem?] at h ⊢
  obtain ⟨hlt, -⟩ := List.getElem?_eq_some.mp h
  exact List.getElem?_set_self hlt

theorem updScore_get_other {l : List Player} {i j : Nat} {d : Int}
    (hne : i ≠ j) : (updScore l i d).get? j = l.get? j := by
  unfold updScore
  cases h : l.get? i with
  | none => rfl
  | some pl =>
    rw [List.get?_eq_getElem?, List.get?_eq_getElem?]
    exact List.getElem?_set_ne hne

theorem updScore_length (l : List Player) (i : Nat) (d : Int) :
    (updScore l i d).length = l.length := by
  unfold updScore
  cases h : l.get? i with
  | none => rfl
  | some pl => exact List.length_set _ _ _

theorem sumScores_updScore {l : List Player} {i : Nat} {pl : Player} {d : Int}
    (h : l.get? i = some pl) :
    sumScores (updScore l i d) = sumScores l + d := by
  unfold updScore
  rw [h, sumScores_set h]
  simp only []
  ring

theorem findIdx?_some_get {l : List Player} {pred : Player → Bool} {i : Nat}
    (h : l.findIdx? pred = some i) :
    ∃ x, l.get? i = some x ∧ pred x = true := by
  obtain ⟨hlt, hp, -⟩ := List.findIdx?_eq_some_iff_getElem.mp h
  refine ⟨l[i], ?_, hp⟩
  rw [List.get?_eq_getElem?]
  exact List.getElem?_eq_some.mpr ⟨hlt, rfl⟩

theorem nodup_ids_get_unique {l : List Player}
    (hnd : (l.map Player.player_id).Nodup) {i j : Nat} {x y : Player}
    (hi : l.get? i = some x) (hj : l.get? j = some y)
    (hxy : x.player_id = y.player_id) : i = j := by
  rw [List.get?_eq_getElem?] at hi hj
  obtain ⟨hilt, hix⟩ := List.getElem?_eq_some.mp hi
  obtain ⟨hjlt, hjy⟩ := List.getElem?_eq_some.mp hj
  have hilt2 : i < (l.map Player.player_id).length := by
    rw [List.length_map]
    exact hilt
  have hjlt2 : j < (l.map Player.player_id).length := by
    rw [List.length_map]
    exact hjlt
  have hmi : (l.map Player.player_id).get ⟨i, hilt2⟩ = x.player_id := by
    rw [List.get_map]
    exact congrArg Player.player_id hix
  have hmj : (l.map Player.player_id).get ⟨j, hjlt2⟩ = y.player_id := by
    rw [List.get_map]
    exact congrArg Player.player_id hjy
  have heq : (l.map Player.player_id).get ⟨i, hilt2⟩ =
      (l.map Player.player_id).get ⟨j, hjlt2⟩ := by
    rw [hmi, hmj, hxy]
  have := (hnd.get_inj_iff).mp heq
  exact congrArg Fin.val this

theorem settle_exposed_eq (players : List Player) (b : Int) (kid did : String)
    (k d : Nat)
    (hk : players.findIdx? (fun pl => pl.player_id == kid) = some k)
    (hd : players.findIdx? (fun pl => pl.player_id == did) = some d) :
    PlayerActions.settle_kong_score players b kid .KONG_EXPOSED (some did) =
      .ok (updScore (updScore players d (-(b * 2))) k (b * 2)) := by
  simp [PlayerActions.settle_kong_score, hk, hd]

theorem settle_three_payer_eq (players : List Player) (b : Int) (kid : String)
    (k : Nat) (kt : ActionType)
    (hk : players.findIdx? (fun pl => pl.player_id == kid) = some k)
    (hkt : kt = .KONG_CONCEALED ∨ kt = .KONG_UPGRADE) :
    PlayerActions.settle_kong_score players b kid kt none =
      .ok (updScore
        (players.map fun pl =>
          if pl.player_id = kid then pl
          else { pl with score := pl.score - b * 1 })
        k (b * 1 * 3)) := by
  rcases hkt with h | h <;> subst h <;>
    simp [PlayerActions.settle_kong_score, hk]

/-- C2: a successful kong settlement transfers exactly the documented
amounts and touches no other score: an exposed kong moves `2 * base_unit`
from the discarder to the claimant; a concealed kong and an upgraded kong
each move `1 * base_unit` from each of the other three players to the
claimant (net `+3 * base_unit`); and with `base_unit = 2` a concealed kong by
the first player from scores `[100,100,100,100]` yields `[106,98,98,98]`. -/
theorem settle_kong_score_amounts
    (players : List Player) (b : Int) (kid did : String) (k d : Nat)
    (pk pd : Player)
    (hnd : (players.map Player.player_id).Nodup)
    (hk : players.findIdx? (fun pl => pl.player_id == kid) = some k)
    (hd : players.findIdx? (fun pl => pl.player_id == did) = some d)
    (hkd : k ≠ d)
    (hpk : players.get? k = some pk)
    (hpd : players.get? d = some pd) :
    (∃ ps', PlayerActions.settle_kong_score players b kid .KONG_EXPOSED
        (some did) = .ok ps' ∧
      ps'.get? d = some { pd with score := pd.score - 2 * b } ∧
      ps'.get? k = some { pk with score := pk.score + 2 * b } ∧
      (∀ j, j ≠ d → j ≠ k → ps'.get? j = players.get? j) ∧
      ps'.length = players.length) ∧
    (∀ kt, kt = ActionType.KONG_CONCEALED ∨ kt = ActionType.KONG_UPGRADE →
      ∃ ps', PlayerActions.settle_kong_score players b kid kt none = .ok ps' ∧
        ps'.get? k = some { pk with score := pk.score + 3 * b } ∧
        (∀ j pj, j ≠ k → players.get? j = some pj →
          ps'.get? j = some { pj with score := pj.score - b }) ∧
        ps'.length = players.length) ∧
    (PlayerActions.settle_kong_score kongScenarioPlayers 2 "A"
        .KONG_CONCEALED none).map (List.map Player.score) =
      .ok [106, 98, 98, 98] := by
  obtain ⟨pk', hpk', hpredk⟩ := findIdx?_some_get hk
  rw [hpk] at hpk'
  cases hpk'
  have hkid : pk.player_id = kid := eq_of_beq hpredk
  refine ⟨?_, ?_, by rfl⟩
  · -- exposed kong
    refine ⟨updScore (updScore players d (-(b * 2))) k (b * 2),
      settle_exposed_eq players b kid did k d hk hd, ?_, ?_, ?_, ?_⟩
    · rw [updScore_get_other hkd, updScore_get_self hpd]
      have harith : pd.score + -(b * 2) = pd.score - 2 * b := by ring
      rw [harith]
    · have hstep : (updScore players d (-(b * 2))).get? k = some pk := by
        rw [updScore_get_other (Ne.symm hkd)]
        exact hpk
      rw [updScore_get_self hstep]
      have harith : pk.score + b * 2 = pk.score + 2 * b := by ring
      rw [harith]
    · intro j hjd hjk
      rw [updScore_get_other (fun h => hjk h.symm),
        updScore_get_other (fun h => hjd h.symm)]
    · rw [updScore_length, updScore_length]
  · -- concealed / upgraded kong
    intro kt hkt
    have hmapk : (players.map fun pl =>
        if pl.player_id = kid then pl
        else { pl with score := pl.score - b * 1 }).get? k = some pk := by
      rw [List.get?_eq_getElem?, List.getElem?_map, ← List.get?_eq_getElem?,
        hpk]
      simp [hkid]
    refine ⟨_, settle_three_payer_eq players b kid k kt hk hkt, ?_, ?_, ?_⟩
    · rw [updScore_get_self hmapk]
      have harith : pk.score + b * 1 * 3 = pk.score + 3 * b := by ring
      rw [harith]
    · intro j pj hjk hpj
      have hpjid : pj.player_id ≠ kid := by
        intro heq
        exact hjk (nodup_ids_get_unique hnd hpj hpk (heq.trans hkid.symm))
      rw [updScore_get_other (fun h => hjk h.symm)]
      rw [List.get?_eq_getElem?, List.getElem?_map, ← List.get?_eq_getElem?,
        hpj]
      have harith : pj.score - b * 1 = pj.score - b := by ring
      simp [hpjid, harith]
    · rw [updScore_length, List.length_map]

theorem sumScores_set_same {l : List Player} {i : Nat} {pl q : Player}
    (h : l.get? i = some pl) (hs : q.score = pl.score) :
    sumScores (l.set i q) = sumScores l := by
  rw [sumScores_set h, hs]
  ring

theorem endGame_players (gs : GameState) :
    (PlayerActions.endGame gs).players = gs.players := by
  unfold PlayerActions.endGame
  split <;> rfl

theorem endGame_initial (gs : GameState) :
    (PlayerActions.endGame gs).initial_total_score = gs.initial_total_score := by
  unfold PlayerActions.endGame
  split <;> rfl

theorem declareHu_invariant {gs gs' : GameState} {idx : Nat} {player : Player}
    {tt : Tile} (h : PlayerActions.declareHu gs idx player tt = .ok gs')
    (hget : gs.players.get? idx = some player)
    (hinv : sumScores gs.players = gs.initial_total_score) :
    sumScores gs'.players = gs'.initial_total_score := by
  simp only [PlayerActions.declareHu] at h
  rw [ite_eq_iff] at h
  rcases h with ⟨-, h⟩ | ⟨-, h⟩
  · cases h
  rw [ite_eq_iff] at h
  rcases h with ⟨-, h⟩ | ⟨-, h⟩
  · cases h
  rw [ite_eq_iff] at h
  rcases h with ⟨-, h⟩ | ⟨-, h⟩
  · cases h
  have hscore : (PlayerActions.huUpdatedPlayer player tt).score = player.score := rfl
  cases hnp : (gs.players.set idx
      (PlayerActions.huUpdatedPlayer player tt)).get? ((idx + 1) % 4) with
  | none =>
    simp only [hnp] at h
    cases h
  | some next_player =>
    simp only [hnp] at h
    cases hw : gs.wall with
    | nil =>
      simp only [hw] at h
      cases h
      rw [endGame_players, endGame_initial]
      show sumScores (gs.players.set idx _) = _
      rw [sumScores_set_same hget hscore]
      exact hinv
    | cons drawn restWall =>
      simp only [hw] at h
      cases h
      rw [sumScores_set hnp, sumScores_set hget]
      show sumScores gs.players - player.score + player.score -
        next_player.score + next_player.score = gs.initial_total_score
      omega

theorem declarePong_invariant {gs gs' : GameState} {idx : Nat}
    {player : Player} {tt : Tile}
    (h : PlayerActions.declarePong gs idx player tt = .ok gs')
    (hget : gs.players.get? idx = some player)
    (hinv : sumScores gs.players = gs.initial_total_score) :
    sumScores gs'.players = gs'.initial_total_score := by
  simp only [PlayerActions.declarePong] at h
  rw [ite_eq_iff] at h
  rcases h with ⟨-, h⟩ | ⟨-, h⟩
  · cases h
  cases h
  rw [sumScores_set hget]
  show sumScores gs.players - player.score + player.score =
    gs.initial_total_score
  omega

theorem settle_verify_ok {res : Except Err (List Player)}
    {f : List Player → GameState} {gs' : GameState}
    (h : (match res with
      | Except.error e => Except.error e
      | Except.ok settled =>
        if (f settled).verify_zero_sum = true then Except.ok (f settled)
        else Except.error Err.runtimeErr : Except Err GameState) =
      Except.ok gs') :
    sumScores gs'.players = gs'.initial_total_score := by
  cases res with
  | error e => cases h
  | ok settled =>
    simp only [] at h
    by_cases hv : (f settled).verify_zero_sum = true
    · rw [if_pos hv] at h
      cases h
      exact of_decide_eq_true hv
    · rw [if_neg hv] at h
      cases h

theorem declareKongExposed_invariant {gs gs' : GameState} {idx : Nat}
    {player : Player} {pid : String} {atype : ActionType} {tt : Tile}
    {did : Option String}
    (h : PlayerActions.declareKongExposed gs idx player pid atype tt did =
      .ok gs') :
    sumScores gs'.players = gs'.initial_total_score := by
  simp only [PlayerActions.declareKongExposed] at h
  rw [ite_eq_iff] at h
  rcases h with ⟨-, h⟩ | ⟨-, h⟩
  · cases h
  cases hlast : gs.wall.getLast? with
  | none =>
    simp only [hlast] at h
    cases h
  | some drawn =>
    simp only [hlast] at h
    exact settle_verify_ok h

theorem declareKongConcealed_invariant {gs gs' : GameState} {idx : Nat}
    {player : Player} {pid : String} {tt : Tile}
    (h : PlayerActions.declareKongConcealed gs idx player pid tt = .ok gs') :
    sumScores gs'.players = gs'.initial_total_score := by
  simp only [PlayerActions.declareKongConcealed] at h
  rw [ite_eq_iff] at h
  rcases h with ⟨-, h⟩ | ⟨-, h⟩
  · cases h
  cases hlast : gs.wall.getLast? with
  | none =>
    simp only [hlast] at h
    cases h
  | some drawn =>
    simp only [hlast] at h
    exact settle_verify_ok h

theorem declareKongUpgrade_invariant {gs gs' : GameState} {idx : Nat}
    {player : Player} {pid : String} {tt : Tile}
    (h : PlayerActions.declareKongUpgrade gs idx player pid tt = .ok gs') :
    sumScores gs'.players = gs'.initial_total_score := by
  simp only [PlayerActions.declareKongUpgrade] at h
  cases hfind : player.melds.findIdx? (fun m =>
      m.meld_type == ActionType.PONG && m.tiles.head? == some tt) with
  | none =>
    simp only [hfind] at h
    cases h
  | some pong_index =>
    simp only [hfind] at h
    rw [ite_eq_iff] at h
    rcases h with ⟨-, h⟩ | ⟨-, h⟩
    · cases h
    cases hlast : gs.wall.getLast? with
    | none =>
      simp only [hlast] at h
      cases h
    | some drawn =>
      simp only [hlast] at h
      exact settle_verify_ok h

theorem declare_action_invariant {gs gs' : GameState} {pid : String}
    {atype : ActionType} {tt : Tile} {did : Option String}
    (h : PlayerActions.declare_action gs pid atype tt did = .ok gs')
    (hinv : sumScores gs.players = gs.initial_total_score) :
    sumScores gs'.players = gs'.initial_total_score := by
  unfold PlayerActions.declare_action at h
  split at h
  · cases h
  split at h
  · cases h
  rename_i player_index hfind
  split at h
  · cases h
  rename_i player hget
  split at h
  · cases h
    exact hinv
  split at h
  · cases h
  split at h
  · exact declareHu_invariant h hget hinv
  split at h
  · exact declarePong_invariant h hget hinv
  split at h
  · exact declareKongExposed_invariant h
  split at h
  · exact declareKongConcealed_invariant h
  split at h
  · exact declareKongUpgrade_invariant h
  cases h

theorem next_player_draw_invariant {gs gs' : GameState}
    (h : PlayerActions.next_player_draw gs = .ok gs')
    (hinv : sumScores gs.players = gs.initial_total_score) :
    sumScores gs'.players = gs'.initial_total_score := by
  simp only [PlayerActions.next_player_draw] at h
  cases hw : gs.wall with
  | nil =>
    simp only [hw] at h
    cases h
    rw [endGame_players, endGame_initial]
    exact hinv
  | cons drawn rest =>
    simp only [hw] at h
    cases hnp : gs.players.get? ((gs.current_player_index + 1) % 4) with
    | none =>
      simp only [hnp] at h
      cases h
    | some np =>
      simp only [hnp] at h
      cases h
      rw [sumScores_set hnp]
      show sumScores gs.players - np.score + np.score = gs.initial_total_score
      omega

theorem process_responses_invariant {gs gs' : GameState}
    {responses : List PlayerResponse} {did : String}
    (h : PlayerActions.process_responses gs responses did = .ok gs')
    (hinv : sumScores gs.players = gs.initial_total_score) :
    sumScores gs'.players = gs'.initial_total_score := by
  simp only [PlayerActions.process_responses] at h
  cases hs : PlayerActions.sortResponsesDesc responses with
  | nil =>
    simp only [hs] at h
    cases h
  | cons highest rest =>
    simp only [hs] at h
    by_cases hp : highest.action_type = ActionType.PASS
    · rw [if_pos hp] at h
      exact next_player_draw_invariant h hinv
    · rw [if_neg hp] at h
      exact declare_action_invariant h hinv

theorem discard_tile_invariant {gs gs' : GameState} {pid : String} {tile : Tile}
    {skip : Bool}
    (h : PlayerActions.discard_tile gs pid tile skip = .ok gs')
    (hinv : sumScores gs.players = gs.initial_total_score) :
    sumScores gs'.players = gs'.initial_total_score := by
  simp only [PlayerActions.discard_tile] at h
  rw [ite_eq_iff] at h
  rcases h with ⟨-, h⟩ | ⟨-, h⟩
  · cases h
  cases hcur : gs.players.get? gs.current_player_index with
  | none =>
    simp only [hcur] at h
    cases h
  | some current_player =>
    simp only [hcur] at h
    rw [ite_eq_iff] at h
    rcases h with ⟨-, h⟩ | ⟨-, h⟩
    · cases h
    rw [ite_eq_iff] at h
    rcases h with ⟨-, h⟩ | ⟨-, h⟩
    · cases h
    rw [ite_eq_iff] at h
    rcases h with ⟨-, h⟩ | ⟨-, h⟩
    · cases h
    rw [ite_eq_iff] at h
    rcases h with ⟨-, h⟩ | ⟨-, h⟩
    · cases h
    have htempsum : sumScores (gs.players.set gs.current_player_index
        { current_player with
            hand := current_player.hand.erase tile
            last_drawn_tile := none }) = sumScores gs.players := by
      rw [sumScores_set hcur]
      show sumScores gs.players - current_player.score + current_player.score =
        sumScores gs.players
      omega
    by_cases hskip : skip = true
    · rw [if_pos hskip] at h
      cases h
      rw [htempsum]
      exact hinv
    · rw [if_neg hskip] at h
      have := process_responses_invariant h ?_
      · exact this
      · show sumScores (gs.players.set gs.current_player_index _) = _
        rw [htempsum]
        exact hinv

theorem bury_cards_invariant {gs gs' : GameState} {pid : String}
    {tiles : List Tile}
    (h : PlayerActions.bury_cards gs pid tiles = .ok gs')
    (hinv : sumScores gs.players = gs.initial_total_score) :
    sumScores gs'.players = gs'.initial_total_score := by
  simp only [PlayerActions.bury_cards] at h
  rw [ite_eq_iff] at h
  rcases h with ⟨-, h⟩ | ⟨-, h⟩
  · cases h
  cases hfind : gs.players.findIdx? (fun pl => pl.player_id == pid) with
  | none =>
    simp only [hfind] at h
    cases h
  | some player_index =>
    simp only [hfind] at h
    cases hget : gs.players.get? player_index with
    | none =>
      simp only [hget] at h
      cases h
    | some player =>
      simp only [hget] at h
      rcases tiles with - | ⟨a, - | ⟨b, - | ⟨c, - | ⟨d, rest⟩⟩⟩⟩
      · cases h
      · cases h
      · cases h
      · simp only [] at h
        rw [ite_eq_iff] at h
        rcases h with ⟨-, h⟩ | ⟨-, h⟩
        · cases h
        rw [ite_eq_iff] at h
        rcases h with ⟨-, h⟩ | ⟨-, h⟩
        · cases h
        cases h
        rw [sumScores_set hget]
        show sumScores gs.players - player.score + player.score =
          gs.initial_total_score
        omega
      · cases h

theorem dealHands_sum (ps : List Player) :
    ∀ (w : List Tile) (i : Nat),
      sumScores (GameManager.dealHands ps w i).1 = sumScores ps := by
  induction ps with
  | nil =>
    intro w i
    rfl
  | cons pl rest ih =>
    intro w i
    simp only [GameManager.dealHands, sumScores, List.map_cons, List.sum_cons]
    have := ih (w.drop (if i = 0 then 14 else 13)) (i + 1)
    simp only [sumScores] at this
    rw [this]

theorem start_game_invariant {gs gs' : GameState} {w : List Tile}
    (h : GameManager.start_game gs w = .ok gs')
    (hinv : sumScores gs.players = gs.initial_total_score) :
    sumScores gs'.players = gs'.initial_total_score := by
  simp only [GameManager.start_game] at h
  rw [ite_eq_iff] at h
  rcases h with ⟨-, h⟩ | ⟨-, h⟩
  · cases h
  cases h
  show sumScores (GameManager.dealHands gs.players w 0).1 =
    gs.initial_total_score
  rw [dealHands_sum]
  exact hinv

theorem applyOp_invariant {op : EngineOp} {gs gs' : GameState}
    (h : applyOp op gs = .ok gs')
    (hinv : sumScores gs.players = gs.initial_total_score) :
    sumScores gs'.players = gs'.initial_total_score := by
  cases op with
  | startOp w => exact start_game_invariant h hinv
  | buryOp pid tiles => exact bury_cards_invariant h hinv
  | discardOp pid tile skip => exact discard_tile_invariant h hinv
  | resolveOp rs did => exact process_responses_invariant h hinv
  | declareOp pid atype tt did => exact declare_action_invariant h hinv
  | endOp =>
    cases h
    rw [endGame_players, endGame_initial]
    exact hinv

theorem runOps_invariant {ops : List EngineOp} {gs gs' : GameState}
    (h : runOps ops gs = .ok gs')
    (hinv : sumScores gs.players = gs.initial_total_score) :
    sumScores gs'.players = gs'.initial_total_score := by
  induction ops generalizing gs with
  | nil =>
    simp only [runOps] at h
    cases h
    exact hinv
  | cons op rest ih =>
    simp only [runOps] at h
    cases hstep : applyOp op gs with
    | error e =>
      simp only [hstep] at h
      cases h
    | ok gs1 =>
      simp only [hstep] at h
      exact ih h (applyOp_invariant hstep hinv)

theorem create_game_sum {gid : String} {ids : List String} {gs : GameState}
    (h : GameManager.create_game gid ids = .ok gs) :
    sumScores gs.players = 100 * ids.length ∧ gs.initial_total_score = 400 := by
  simp only [GameManager.create_game] at h
  rw [ite_eq_iff] at h
  rcases h with ⟨-, h⟩ | ⟨-, h⟩
  · cases h
  cases h
  constructor
  · show sumScores (ids.map fun pid => { player_id := pid }) = 100 * ids.length
    induction ids with
    | nil => rfl
    | cons x xs ih =>
      simp only [sumScores, List.map_cons, List.sum_cons, List.length_cons]
        at ih ⊢
      rw [ih]
      push_cast
      ring
  · rfl

theorem settle_kong_score_amounts_witness :
    ∃ ps', PlayerActions.settle_kong_score kongScenarioPlayers 2 "A"
        ActionType.KONG_EXPOSED (some "B") = .ok ps' ∧
      ps'.get? 1 = some { player_id := "B", score := 96 } ∧
      ps'.get? 0 = some { player_id := "A", score := 104 } := by
  obtain ⟨⟨ps', heq, hd1, hk1, -, -⟩, -, -⟩ :=
    settle_kong_score_amounts kongScenarioPlayers 2 "A" "B" 0 1
      { player_id := "A" } { player_id := "B" }
      (by decide) rfl rfl (by decide) rfl rfl
  exact ⟨ps', heq, hd1.trans (by decide), hk1.trans (by decide)⟩

/-- C3: the zero-sum invariant holds across the engine: a freshly created
4-player game has score total 400 equal to `initial_total_score`; every
successful engine operation — in particular every kong-variant declare with
its immediate settlement — preserves `sum of scores = initial_total_score`;
hence after any successful operation sequence from creation the totals still
agree. -/
theorem engine_zero_sum_invariant :
    (∀ gid ids gs0, GameManager.create_game gid ids = .ok gs0 →
      sumScores gs0.players = gs0.initial_total_score ∧
      gs0.initial_total_score = 400) ∧
    (∀ op gs gs', applyOp op gs = .ok gs' →
      sumScores gs.players = gs.initial_total_score →
      sumScores gs'.players = gs'.initial_total_score) ∧
    (∀ gid ids gs0 ops gs', GameManager.create_game gid ids = .ok gs0 →
      runOps ops gs0 = .ok gs' →
      sumScores gs'.players = gs'.initial_total_score) := by
  have hcreate : ∀ (gid : String) (ids : List String) (gs0 : GameState),
      GameManager.create_game gid ids = .ok gs0 →
      sumScores gs0.players = gs0.initial_total_score ∧
      gs0.initial_total_score = 400 := by
    intro gid ids gs0 h
    obtain ⟨hsum, hinit⟩ := create_game_sum h
    have hlen : ids.length = 4 := by
      by_contra hne
      simp [GameManager.create_game, hne] at h
    rw [hlen] at hsum
    refine ⟨?_, hinit⟩
    rw [hsum, hinit]
    norm_num
  refine ⟨hcreate, ?_, ?_⟩
  · intro op gs gs' h hinv
    exact applyOp_invariant h hinv
  · intro gid ids gs0 ops gs' hc hr
    obtain ⟨hsum, -⟩ := hcreate gid ids gs0 hc
    exact runOps_invariant hr hsum

theorem error_leaves_input {op : EngineOp} {gs : GameState} {e : Err}
    (h : applyOp op gs = .error e) : inputAfter op gs = gs := by
  cases op with
  | startOp w =>
    show (match GameManager.start_game gs w with
      | .ok gs' => gs'
      | .error _ => gs) = gs
    rw [show applyOp (.startOp w) gs = GameManager.start_game gs w from rfl]
      at h
    rw [h]
  | buryOp pid tiles => rfl
  | discardOp pid tile skip => rfl
  | resolveOp rs did =>
    show (match PlayerActions.sortResponsesDesc rs with
      | [] => gs
      | highest :: _ =>
        if highest.action_type = .PASS ∧ gs.wall = [] then
          PlayerActions.endGame gs
        else gs) = gs
    cases hs : PlayerActions.sortResponsesDesc rs with
    | nil => simp only [hs]
    | cons highest others =>
      simp only [hs]
      by_cases hc : highest.action_type = .PASS ∧ gs.wall = []
      · exfalso
        have hok : applyOp (.resolveOp rs did) gs =
            .ok (PlayerActions.endGame gs) := by
          show PlayerActions.process_responses gs rs did = _
          simp only [PlayerActions.process_responses, hs, if_pos hc.1,
            PlayerActions.next_player_draw, hc.2]
        rw [h] at hok
        cases hok
      · rw [if_neg hc]
  | declareOp pid atype tt did => rfl
  | endOp => cases h

theorem discard_wrong_phase {gs : GameState} {pid : String} {tile : Tile}
    {skip : Bool} (h : gs.game_phase ≠ .PLAYING) :
    PlayerActions.discard_tile gs pid tile skip = .error .invalidGameState := by
  simp [PlayerActions.discard_tile, h]

theorem declare_wrong_phase {gs : GameState} {pid : String} {atype : ActionType}
    {tt : Tile} {did : Option String} (h : gs.game_phase ≠ .PLAYING) :
    PlayerActions.declare_action gs pid atype tt did =
      .error .invalidGameState := by
  simp [PlayerActions.declare_action, h]

theorem bury_wrong_phase {gs : GameState} {pid : String} {tiles : List Tile}
    (h : gs.game_phase ≠ .BURYING) :
    PlayerActions.bury_cards gs pid tiles = .error .invalidGameState := by
  simp [PlayerActions.bury_cards, h]

theorem discard_out_of_turn {gs : GameState} {pid : String} {tile : Tile}
    {skip : Bool} {cp : Player} (hph : gs.game_phase = .PLAYING)
    (hcur : gs.players.get? gs.current_player_index = some cp)
    (hid : cp.player_id ≠ pid) :
    PlayerActions.discard_tile gs pid tile skip = .error .invalidAction := by
  rw [List.get?_eq_getElem?] at hcur
  simp [PlayerActions.discard_tile, hph, hcur, hid]

theorem discard_tile_absent {gs : GameState} {pid : String} {tile : Tile}
    {skip : Bool} {cp : Player} (hph : gs.game_phase = .PLAYING)
    (hcur : gs.players.get? gs.current_player_index = some cp)
    (hid : cp.player_id = pid) (habs : tile ∉ cp.hand) :
    PlayerActions.discard_tile gs pid tile skip = .error .invalidAction := by
  rw [List.get?_eq_getElem?] at hcur
  simp [PlayerActions.discard_tile, hph, hcur, hid, habs]

theorem discard_must_play_last_drawn {gs : GameState} {pid : String}
    {tile d : Tile} {skip : Bool} {cp : Player}
    (hph : gs.game_phase = .PLAYING)
    (hcur : gs.players.get? gs.current_player_index = some cp)
    (hid : cp.player_id = pid) (hmem : tile ∈ cp.hand)
    (hwon : cp.is_hu = true) (hlast : cp.last_drawn_tile = some d)
    (hne : tile ≠ d) :
    PlayerActions.discard_tile gs pid tile skip = .error .invalidAction := by
  rw [List.get?_eq_getElem?] at hcur
  have hcond : cp.is_hu = true ∧ ¬ cp.last_drawn_tile = none ∧
      ¬ cp.last_drawn_tile = some tile := by
    refine ⟨hwon, by simp [hlast], ?_⟩
    rw [hlast]
    simp
    exact fun hh => hne hh.symm
  simp [PlayerActions.discard_tile, hph, hcur, hid, hmem, hcond]

theorem discard_missing_suit_priority {gs : GameState} {pid : String}
    {tile : Tile} {skip : Bool} {cp : Player} {ms : Suit}
    (hph : gs.game_phase = .PLAYING)
    (hcur : gs.players.get? gs.current_player_index = some cp)
    (hid : cp.player_id = pid) (hmem : tile ∈ cp.hand)
    (hwon : cp.is_hu = false) (hms : cp.missing_suit = some ms)
    (hhas : (cp.hand.any fun t => t.suit = ms) = true)
    (hne : tile.suit ≠ ms) :
    PlayerActions.discard_tile gs pid tile skip = .error .invalidAction := by
  rw [List.get?_eq_getElem?] at hcur
  have hcond : ∃ m, cp.missing_suit = some m ∧
      (∃ x ∈ cp.hand, x.suit = m) ∧ ¬ tile.suit = m := by
    refine ⟨ms, hms, ?_, hne⟩
    simpa [List.any_eq_true] using hhas
  simp [PlayerActions.discard_tile, hph, hcur, hid, hmem, hwon, hcond]

theorem declare_frozen_hand {gs : GameState} {pid : String} {atype : ActionType}
    {tt : Tile} {did : Option String} {idx : Nat} {player : Player}
    (hph : gs.game_phase = .PLAYING)
    (hfind : gs.players.findIdx? (fun pl => pl.player_id == pid) = some idx)
    (hget : gs.players.get? idx = some player) (hwon : player.is_hu = true)
    (hat : atype = .PONG ∨ atype = .KONG_EXPOSED ∨ atype = .KONG_CONCEALED ∨
      atype = .KONG_UPGRADE) :
    PlayerActions.declare_action gs pid atype tt did = .error .invalidAction := by
  rw [List.get?_eq_getElem?] at hget
  have hpass : atype ≠ .PASS := by
    rcases hat with h | h | h | h <;> subst h <;> decide
  simp [PlayerActions.declare_action, hph, hfind, hget, hpass, hwon, hat]

theorem declare_pong_insufficient {gs : GameState} {pid : String} {tt : Tile}
    {did : Option String} {idx : Nat} {player : Player}
    (hph : gs.game_phase = .PLAYING)
    (hfind : gs.players.findIdx? (fun pl => pl.player_id == pid) = some idx)
    (hget : gs.players.get? idx = some player) (hwon : player.is_hu = false)
    (hcount : player.hand.count tt < 2) :
    PlayerActions.declare_action gs pid .PONG tt did =
      .error .invalidAction := by
  rw [List.get?_eq_getElem?] at hget
  simp [PlayerActions.declare_action, PlayerActions.declarePong, hph, hfind,
    hget, hwon, hcount]

theorem declare_kong_exposed_insufficient {gs : GameState} {pid : String}
    {tt : Tile} {did : Option String} {idx : Nat} {player : Player}
    (hph : gs.game_phase = .PLAYING)
    (hfind : gs.players.findIdx? (fun pl => pl.player_id == pid) = some idx)
    (hget : gs.players.get? idx = some player) (hwon : player.is_hu = false)
    (hcount : player.hand.count tt < 3) :
    PlayerActions.declare_action gs pid .KONG_EXPOSED tt did =
      .error .invalidAction := by
  rw [List.get?_eq_getElem?] at hget
  simp [PlayerActions.declare_action, PlayerActions.declareKongExposed, hph,
    hfind, hget, hwon, hcount]

theorem declare_kong_concealed_insufficient {gs : GameState} {pid : String}
    {tt : Tile} {did : Option String} {idx : Nat} {player : Player}
    (hph : gs.game_phase = .PLAYING)
    (hfind : gs.players.findIdx? (fun pl => pl.player_id == pid) = some idx)
    (hget : gs.players.get? idx = some player) (hwon : player.is_hu = false)
    (hcount : player.hand.count tt < 4) :
    PlayerActions.declare_action gs pid .KONG_CONCEALED tt did =
      .error .invalidAction := by
  rw [List.get?_eq_getElem?] at hget
  simp [PlayerActions.declare_action, PlayerActions.declareKongConcealed, hph,
    hfind, hget, hwon, hcount]

theorem declare_kong_upgrade_insufficient {gs : GameState} {pid : String}
    {tt : Tile} {did : Option String} {idx mi : Nat} {player : Player}
    (hph : gs.game_phase = .PLAYING)
    (hfind : gs.players.findIdx? (fun pl => pl.player_id == pid) = some idx)
    (hget : gs.players.get? idx = some player) (hwon : player.is_hu = false)
    (hmeld : player.melds.findIdx? (fun m =>
      m.meld_type == ActionType.PONG && m.tiles.head? == some tt) = some mi)
    (hcount : player.hand.count tt < 1) :
    PlayerActions.declare_action gs pid .KONG_UPGRADE tt did =
      .error .invalidAction := by
  rw [List.get?_eq_getElem?] at hget
  simp [PlayerActions.declare_action, PlayerActions.declareKongUpgrade, hph,
    hfind, hget, hwon, hmeld, hcount]

theorem declare_hu_invalid_self {gs : GameState} {pid : String} {tt : Tile}
    {did : Option String} {idx : Nat} {player : Player}
    (hph : gs.game_phase = .PLAYING)
    (hfind : gs.players.findIdx? (fun pl => pl.player_id == pid) = some idx)
    (hget : gs.players.get? idx = some player)
    (hlast : player.last_drawn_tile = some tt)
    (hhu : WinChecker.is_hu player none = false) :
    PlayerActions.declare_action gs pid .HU tt did = .error .invalidAction := by
  rw [List.get?_eq_getElem?] at hget
  simp [PlayerActions.declare_action, PlayerActions.declareHu, hph, hfind,
    hget, hlast, hhu]

theorem declare_hu_invalid_discard {gs : GameState} {pid : String} {tt : Tile}
    {did : Option String} {idx : Nat} {player : Player}
    (hph : gs.game_phase = .PLAYING)
    (hfind : gs.players.findIdx? (fun pl => pl.player_id == pid) = some idx)
    (hget : gs.players.get? idx = some player)
    (hlast : player.last_drawn_tile ≠ some tt)
    (hhu : WinChecker.is_hu player (some tt) = false) :
    PlayerActions.declare_action gs pid .HU tt did = .error .invalidAction := by
  rw [List.get?_eq_getElem?] at hget
  simp [PlayerActions.declare_action, PlayerActions.declareHu, hph, hfind,
    hget, hlast, hhu]

theorem declare_kong_exposed_empty_wall {gs : GameState} {pid : String}
    {tt : Tile} {did : Option String} {idx : Nat} {player : Player}
    (hph : gs.game_phase = .PLAYING)
    (hfind : gs.players.findIdx? (fun pl => pl.player_id == pid) = some idx)
    (hget : gs.players.get? idx = some player) (hwon : player.is_hu = false)
    (hcount : 3 ≤ player.hand.count tt) (hwall : gs.wall = []) :
    PlayerActions.declare_action gs pid .KONG_EXPOSED tt did =
      .error .invalidAction := by
  rw [List.get?_eq_getElem?] at hget
  simp [PlayerActions.declare_action, PlayerActions.declareKongExposed, hph,
    hfind, hget, hwon, hwall, Nat.not_lt.mpr hcount]

theorem declare_kong_concealed_empty_wall {gs : GameState} {pid : String}
    {tt : Tile} {did : Option String} {idx : Nat} {player : Player}
    (hph : gs.game_phase = .PLAYING)
    (hfind : gs.players.findIdx? (fun pl => pl.player_id == pid) = some idx)
    (hget : gs.players.get? idx = some player) (hwon : player.is_hu = false)
    (hcount : 4 ≤ player.hand.count tt) (hwall : gs.wall = []) :
    PlayerActions.declare_action gs pid .KONG_CONCEALED tt did =
      .error .invalidAction := by
  rw [List.get?_eq_getElem?] at hget
  simp [PlayerActions.declare_action, PlayerActions.declareKongConcealed, hph,
    hfind, hget, hwon, hwall, Nat.not_lt.mpr hcount]

/-- C4: every rejected action is atomic.  Each listed validation failure —
wrong phase, out-of-turn discard, tile absent from hand, must-discard-last-
drawn violation, missing-suit-priority violation, a player who has already
won attempting pong or a kong variant, insufficient matching tiles for
pong/kong/upgrade, an invalid hu claim, and a kong attempted with an empty
wall — makes the operation return an error, and whenever any engine operation
returns an error the caller-visible `GameState` is exactly the input state,
with no partial mutation of any field. -/
theorem rejected_actions_atomic :
    (∀ op gs e, applyOp op gs = .error e → inputAfter op gs = gs) ∧
    (∀ gs pid tile skip, gs.game_phase ≠ .PLAYING →
      PlayerActions.discard_tile gs pid tile skip =
        .error .invalidGameState) ∧
    (∀ gs pid atype tt did, gs.game_phase ≠ .PLAYING →
      PlayerActions.declare_action gs pid atype tt did =
        .error .invalidGameState) ∧
    (∀ gs pid tiles, gs.game_phase ≠ .BURYING →
      PlayerActions.bury_cards gs pid tiles = .error .invalidGameState) ∧
    (∀ gs pid tile skip cp, gs.game_phase = .PLAYING →
      gs.players.get? gs.current_player_index = some cp →
      cp.player_id ≠ pid →
      PlayerActions.discard_tile gs pid tile skip = .error .invalidAction) ∧
    (∀ gs pid tile skip cp, gs.game_phase = .PLAYING →
      gs.players.get? gs.current_player_index = some cp →
      cp.player_id = pid → tile ∉ cp.hand →
      PlayerActions.discard_tile gs pid tile skip = .error .invalidAction) ∧
    (∀ gs pid tile d skip cp, gs.game_phase = .PLAYING →
      gs.players.get? gs.current_player_index = some cp →
      cp.player_id = pid → tile ∈ cp.hand → cp.is_hu = true →
      cp.last_drawn_tile = some d → tile ≠ d →
      PlayerActions.discard_tile gs pid tile skip = .error .invalidAction) ∧
    (∀ gs pid tile skip cp ms, gs.game_phase = .PLAYING →
      gs.players.get? gs.current_player_index = some cp →
      cp.player_id = pid → tile ∈ cp.hand → cp.is_hu = false →
      cp.missing_suit = some ms →
      (cp.hand.any fun t => t.suit = ms) = true → tile.suit ≠ ms →
      PlayerActions.discard_tile gs pid tile skip = .error .invalidAction) ∧
    (∀ gs pid atype tt did idx player, gs.game_phase = .PLAYING →
      gs.players.findIdx? (fun pl => pl.player_id == pid) = some idx →
      gs.players.get? idx = some player → player.is_hu = true →
      (atype = .PONG ∨ atype = .KONG_EXPOSED ∨ atype = .KONG_CONCEALED ∨
        atype = .KONG_UPGRADE) →
      PlayerActions.declare_action gs pid atype tt did =
        .error .invalidAction) ∧
    (∀ gs pid tt did idx player mi, gs.game_phase = .PLAYING →
      gs.players.findIdx? (fun pl => pl.player_id == pid) = some idx →
      gs.players.get? idx = some player → player.is_hu = false →
      (player.hand.count tt < 2 →
        PlayerActions.declare_action gs pid .PONG tt did =
          .error .invalidAction) ∧
      (player.hand.count tt < 3 →
        PlayerActions.declare_action gs pid .KONG_EXPOSED tt did =
          .error .invalidAction) ∧
      (player.hand.count tt < 4 →
        PlayerActions.declare_action gs pid .KONG_CONCEALED tt did =
          .error .invalidAction) ∧
      (player.melds.findIdx? (fun m =>
          m.meld_type == ActionType.PONG && m.tiles.head? == some tt) =
            some mi →
        player.hand.count tt < 1 →
        PlayerActions.declare_action gs pid .KONG_UPGRADE tt did =
          .error .invalidAction)) ∧
    (∀ gs pid tt did idx player, gs.game_phase = .PLAYING →
      gs.players.findIdx? (fun pl => pl.player_id == pid) = some idx →
      gs.players.get? idx = some player →
      (player.last_drawn_tile = some tt →
        WinChecker.is_hu player none = false →
        PlayerActions.declare_action gs pid .HU tt did =
          .error .invalidAction) ∧
      (player.last_drawn_tile ≠ some tt →
        WinChecker.is_hu player (some tt) = false →
        PlayerActions.declare_action gs pid .HU tt did =
          .error .invalidAction)) ∧
    (∀ gs pid tt did idx player, gs.game_phase = .PLAYING →
      gs.players.findIdx? (fun pl => pl.player_id == pid) = some idx →
      gs.players.get? idx = some player → player.is_hu = false →
      gs.wall = [] →
      (3 ≤ player.hand.count tt →
        PlayerActions.declare_action gs pid .KONG_EXPOSED tt did =
          .error .invalidAction) ∧
      (4 ≤ player.hand.count tt →
        PlayerActions.declare_action gs pid .KONG_CONCEALED tt did =
          .error .invalidAction)) := by
  refine ⟨?_, ?_, ?_, ?_, ?_, ?_, ?_, ?_, ?_, ?_, ?_, ?_⟩
  · intro op gs e h
    exact error_leaves_input h
  · intro gs pid tile skip h
    exact discard_wrong_phase h
  · intro gs pid atype tt did h
    exact declare_wrong_phase h
  · intro gs pid tiles h
    exact bury_wrong_phase h
  · intro gs pid tile skip cp h1 h2 h3
    exact discard_out_of_turn h1 h2 h3
  · intro gs pid tile skip cp h1 h2 h3 h4
    exact discard_tile_absent h1 h2 h3 h4
  · intro gs pid tile d skip cp h1 h2 h3 h4 h5 h6 h7
    exact discard_must_play_last_drawn h1 h2 h3 h4 h5 h6 h7
  · intro gs pid tile skip cp ms h1 h2 h3 h4 h5 h6 h7 h8
    exact discard_missing_suit_priority h1 h2 h3 h4 h5 h6 h7 h8
  · intro gs pid atype tt did idx player h1 h2 h3 h4 h5
    exact declare_frozen_hand h1 h2 h3 h4 h5
  · intro gs pid tt did idx player mi h1 h2 h3 h4
    exact ⟨fun hc => declare_pong_insufficient h1 h2 h3 h4 hc,
      fun hc => declare_kong_exposed_insufficient h1 h2 h3 h4 hc,
      fun hc => declare_kong_concealed_insufficient h1 h2 h3 h4 hc,
      fun hm hc => declare_kong_upgrade_insufficient h1 h2 h3 h4 hm hc⟩
  · intro gs pid tt did idx player h1 h2 h3
    exact ⟨fun hl hh => declare_hu_invalid_self h1 h2 h3 hl hh,
      fun hl hh => declare_hu_invalid_discard h1 h2 h3 hl hh⟩
  · intro gs pid tt did idx player h1 h2 h3 h4 h5
    exact ⟨fun hc => declare_kong_exposed_empty_wall h1 h2 h3 h4 hc h5,
      fun hc => declare_kong_concealed_empty_wall h1 h2 h3 h4 hc h5⟩

theorem map_score_set_same {l : List Player} {i : Nat} {pl q : Player}
    (h : l.get? i = some pl) (hs : q.score = pl.score) :
    (l.set i q).map Player.score = l.map Player.score := by
  induction l generalizing i with
  | nil => simp at h
  | cons x xs ih =>
    cases i with
    | zero =>
      simp only [List.get?] at h
      cases h
      simp [List.set, hs]
    | succ n =>
      simp only [List.get?] at h
      simp [List.set, ih h]

theorem declareHu_scores {gs gs' : GameState} {idx : Nat} {player : Player}
    {tt : Tile} (h : PlayerActions.declareHu gs idx player tt = .ok gs')
    (hget : gs.players.get? idx = some player) :
    gs'.players.map Player.score = gs.players.map Player.score := by
  simp only [PlayerActions.declareHu] at h
  rw [ite_eq_iff] at h
  rcases h with ⟨-, h⟩ | ⟨-, h⟩
  · cases h
  rw [ite_eq_iff] at h
  rcases h with ⟨-, h⟩ | ⟨-, h⟩
  · cases h
  rw [ite_eq_iff] at h
  rcases h with ⟨-, h⟩ | ⟨-, h⟩
  · cases h
  cases hnp : (gs.players.set idx
      (PlayerActions.huUpdatedPlayer player tt)).get? ((idx + 1) % 4) with
  | none =>
    simp only [hnp] at h
    cases h
  | some next_player =>
    simp only [hnp] at h
    cases hw : gs.wall with
    | nil =>
      simp only [hw] at h
      cases h
      rw [endGame_players]
      exact map_score_set_same hget rfl
    | cons drawn restWall =>
      simp only [hw] at h
      cases h
      show ((gs.players.set idx (PlayerActions.huUpdatedPlayer player tt)).set
        ((idx + 1) % 4) _).map Player.score = _
      rw [map_score_set_same hnp (by rfl), map_score_set_same hget (by rfl)]

/-- C10: a successful Hu declaration never changes any player's score — for
every state and every accepted hu, self-drawn or claiming a discard, the
score column of the resulting state equals that of the input state. -/
theorem hu_preserves_scores {gs gs' : GameState} {pid : String} {tt : Tile}
    {did : Option String}
    (h : PlayerActions.declare_action gs pid .HU tt did = .ok gs') :
    gs'.players.map Player.score = gs.players.map Player.score := by
  simp only [PlayerActions.declare_action] at h
  rw [ite_eq_iff] at h
  rcases h with ⟨-, h⟩ | ⟨-, h⟩
  · cases h
  cases hfind : gs.players.findIdx? (fun pl => pl.player_id == pid) with
  | none =>
    simp only [hfind] at h
    cases h
  | some idx =>
    simp only [hfind] at h
    cases hget : gs.players.get? idx with
    | none =>
      simp only [hget] at h
      cases h
    | some player =>
      simp only [hget] at h
      rw [if_neg (by decide : ¬ (ActionType.HU = ActionType.PASS))] at h
      rw [ite_eq_iff] at h
      rcases h with ⟨-, h⟩ | ⟨-, h⟩
      · cases h
      simp only [if_true] at h
      exact declareHu_scores h hget

theorem hu_preserves_scores_witness :
    ∃ gs', PlayerActions.declare_action huWitnessState "A" ActionType.HU
        ⟨Suit.WAN, 1⟩ (some "B") = .ok gs' ∧
      gs'.players.map Player.score = huWitnessState.players.map Player.score := by
  cases hres : PlayerActions.declare_action huWitnessState "A" ActionType.HU
      ⟨Suit.WAN, 1⟩ (some "B") with
  | error e =>
    have hok : (PlayerActions.declare_action huWitnessState "A" ActionType.HU
        ⟨Suit.WAN, 1⟩ (some "B")).isOk = true := by decide
    rw [hres] at hok
    simp [Except.isOk, Except.toBool] at hok
  | ok gs' =>
    exact ⟨gs', rfl, hu_preserves_scores hres⟩

/-- C9 counterexample: `end_game` mutates the `GameState` it is given
(`game_state.game_phase = GamePhase.ENDED` on the argument, which is also the
return value), so the caller's prior snapshot does not survive the call: for
a concrete PLAYING-phase state the caller-visible state after `end` differs
from the state before. -/
theorem end_game_mutates_input :
    inputAfter .endOp c9PlayingState ≠ c9PlayingState := by
  decide

/-- C9 (amended): `bury`, `discard`, `collectResponses` and `declare` are
pure — they build the new state with `replace` and fresh lists and never
write to their input, so the caller's snapshot of the input survives those
calls unchanged — but `start` and `end` assign fields on the `GameState`
they are given and return the same object (for `end` on a not-yet-ended
state the prior snapshot is lost), and `resolveResponses`, exactly when the
selected candidate is a pass and the wall is empty, calls `end` on its input
so the caller's reference is mutated to the ended result; on every other
resolve path the input survives unchanged. -/
theorem ops_pure_except_start_end :
    (∀ op gs, mutatesInPlace op = false → inputAfter op gs = gs) ∧
    (∀ gs, inputAfter .endOp gs = PlayerActions.endGame gs) ∧
    (∀ gs w gs', GameManager.start_game gs w = .ok gs' →
      inputAfter (.startOp w) gs = gs') ∧
    (∀ (gs : GameState) (did : String) (rs : List PlayerResponse) highest
        others,
      PlayerActions.sortResponsesDesc rs = highest :: others →
      (highest.action_type = .PASS ∧ gs.wall = [] →
        inputAfter (.resolveOp rs did) gs = PlayerActions.endGame gs ∧
        applyOp (.resolveOp rs did) gs = .ok (PlayerActions.endGame gs)) ∧
      (¬ (highest.action_type = .PASS ∧ gs.wall = []) →
        inputAfter (.resolveOp rs did) gs = gs)) ∧
    (∀ gs, gs.game_phase ≠ .ENDED → inputAfter .endOp gs ≠ gs) := by
  refine ⟨?_, ?_, ?_, ?_, ?_⟩
  · intro op gs hm
    cases op with
    | startOp w => simp [mutatesInPlace] at hm
    | buryOp pid tiles => rfl
    | discardOp pid tile skip => rfl
    | resolveOp rs did => simp [mutatesInPlace] at hm
    | declareOp pid atype tt did => rfl
    | endOp => simp [mutatesInPlace] at hm
  · intro gs
    rfl
  · intro gs w gs' h
    show (match GameManager.start_game gs w with
      | .ok g => g
      | .error _ => gs) = gs'
    rw [h]
  · intro gs did rs highest others hs
    constructor
    · intro hc
      constructor
      · show (match PlayerActions.sortResponsesDesc rs with
          | [] => gs
          | highest :: _ =>
            if highest.action_type = .PASS ∧ gs.wall = [] then
              PlayerActions.endGame gs
            else gs) = PlayerActions.endGame gs
        simp only [hs, if_pos hc]
      · show PlayerActions.process_responses gs rs did = _
        simp only [PlayerActions.process_responses, hs, if_pos hc.1,
          PlayerActions.next_player_draw, hc.2]
    · intro hc
      show (match PlayerActions.sortResponsesDesc rs with
        | [] => gs
        | highest :: _ =>
          if highest.action_type = .PASS ∧ gs.wall = [] then
            PlayerActions.endGame gs
          else gs) = gs
      simp only [hs, if_neg hc]
  · intro gs hph heq
    have : (PlayerActions.endGame gs).game_phase = gs.game_phase :=
      congrArg GameState.game_phase heq
    rw [PlayerActions.endGame, if_neg (fun hh => hph hh)] at this
    exact hph this.symm

/-- C7 counterexample: for a pure-suit all-triplets hand scored with the
immediate-win flag (`is_tian_hu`), the code adds the +5 immediate-win bonus
and the +3 pure-suit/all-triplets tier bonus (total 10), whereas the claimed
mutually exclusive tier table (modelled by `specTierFan`) yields exactly +5
as the tier contribution (total 7). -/
theorem scorer_tier_not_exclusive :
    Scorer.calculate_score tianHuPlayer none false false false true false = 10 ∧
    Scorer.specTierFan tianHuPlayer none false false false true false = 7 ∧
    Scorer.calculate_score tianHuPlayer none false false false true false ≠
      Scorer.specTierFan tianHuPlayer none false false false true false := by
  refine ⟨by decide, by decide, by decide⟩

/-- C7 (amended): the immediate-win bonus is additive, not an exclusive tier:
whenever `is_tian_hu` or `is_di_hu` is set, the fan total is exactly the
total without those flags plus 5, on top of whatever pattern tier
(all-triplets / single-suit ladder) and additive bonuses apply. -/
theorem immediate_win_bonus_additive (p : Player) (e : Option Tile)
    (sd kf lt : Bool) :
    Scorer.calculate_fan p e sd kf lt true false =
        Scorer.calculate_fan p e sd kf lt false false + 5 ∧
    Scorer.calculate_fan p e sd kf lt false true =
        Scorer.calculate_fan p e sd kf lt false false + 5 ∧
    Scorer.calculate_fan p e sd kf lt true true =
        Scorer.calculate_fan p e sd kf lt false false + 5 := by
  refine ⟨?_, ?_, ?_⟩ <;>
    · unfold Scorer.calculate_fan
      norm_num
      ring

theorem collectLoop_eq (t : Tile) (did : String) (ps : List Player) :
    PlayerActions.collectLoop t did ps =
      (ps.filter fun pl =>
        !(pl.player_id == did) && !(pl.player_id == "human")).map
        (fun pl => specResponseFor pl t) := by
  induction ps with
  | nil => rfl
  | cons pl rest ih =>
    simp only [PlayerActions.collectLoop]
    by_cases h1 : pl.player_id = did
    · simp [h1, ih, List.filter_cons]
    · by_cases h2 : pl.player_id = "human"
      · simp [h1, h2, ih, List.filter_cons]
      · rw [if_neg h1, if_neg h2]
        have hfil : (pl :: rest).filter (fun pl =>
            !(pl.player_id == did) && !(pl.player_id == "human")) =
            pl :: rest.filter (fun pl =>
              !(pl.player_id == did) && !(pl.player_id == "human")) := by
          simp [List.filter_cons, h1, h2]
        rw [hfil, List.map_cons, ← ih]
        congr 1
        unfold specResponseFor
        by_cases hhu : WinChecker.is_hu pl (some t) = true
        · simp [hhu, PlayerResponse.get_priority]
        · by_cases hwon : pl.is_hu = false
          · by_cases h3 : 3 ≤ pl.hand.count t
            · simp [hhu, hwon, h3, PlayerResponse.get_priority]
            · by_cases h2c : 2 ≤ pl.hand.count t
              · simp [hhu, hwon, h3, h2c, PlayerResponse.get_priority]
              · simp [hhu, hwon, h3, h2c, PlayerResponse.get_priority]
          · simp [hhu, hwon, PlayerResponse.get_priority]

/-- C5 (amended): `collect_ai_responses` returns exactly one candidate for
every player other than the discarder and other than the player whose id is
the literal "human" (whose response is supplied through the UI), and the
candidate follows the hu / exposed-kong / pong / pass rule with priorities
3/2/1/0; a player who has already won may receive hu but never pong or
kong. -/
theorem collect_ai_responses_characterization (gs : GameState) (t : Tile)
    (did : String) :
    PlayerActions.collect_ai_responses gs t did =
      (gs.players.filter fun pl =>
        !(pl.player_id == did) && !(pl.player_id == "human")).map
        (fun pl => specResponseFor pl t) :=
  collectLoop_eq t did gs.players

/-- C5 counterexample: the claim promises exactly one candidate for every
player other than the discarder, but on a state with the production seat ids
the response collector returns candidates only for `ai_2` and `ai_3` — the
non-discarder `human`, who even holds two matching tiles, gets none. -/
theorem collect_ai_responses_skips_human :
    (PlayerActions.collect_ai_responses c5State ⟨Suit.WAN, 1⟩ "ai_1").map
      (fun r => r.player_id) = ["ai_2", "ai_3"] ∧
    (c5State.players.filter fun pl => pl.player_id ≠ "ai_1").map
      Player.player_id = ["human", "ai_2", "ai_3"] := by
  exact ⟨by decide, by decide⟩

theorem insertDesc_ne_nil (r : PlayerResponse) (l : List PlayerResponse) :
    PlayerActions.insertDesc r l ≠ [] := by
  cases l with
  | nil => simp [PlayerActions.insertDesc]
  | cons x xs =>
    simp only [PlayerActions.insertDesc]
    split <;> simp

theorem sortResponsesDesc_eq_nil {l : List PlayerResponse}
    (h : PlayerActions.sortResponsesDesc l = []) : l = [] := by
  cases l with
  | nil => rfl
  | cons a rest =>
    exact absurd h (insertDesc_ne_nil a _)

theorem sortResponsesDesc_cons (a : PlayerResponse)
    (rest : List PlayerResponse) :
    PlayerActions.sortResponsesDesc (a :: rest) =
      PlayerActions.insertDesc a (PlayerActions.sortResponsesDesc rest) := rfl

theorem sortResponsesDesc_head_decomp :
    ∀ (l : List PlayerResponse) (x : PlayerResponse)
      (xs : List PlayerResponse),
      PlayerActions.sortResponsesDesc l = x :: xs →
      ∃ pre post, l = pre ++ x :: post ∧
        (∀ r ∈ pre, r.priority < x.priority) ∧
        (∀ r ∈ post, r.priority ≤ x.priority) := by
  intro l
  induction l with
  | nil =>
    intro x xs h
    cases h
  | cons a rest ih =>
    intro x xs h
    rw [sortResponsesDesc_cons] at h
    cases hs : PlayerActions.sortResponsesDesc rest with
    | nil =>
      have hrest : rest = [] := sortResponsesDesc_eq_nil hs
      subst hrest
      rw [hs] at h
      simp only [PlayerActions.insertDesc] at h
      cases h
      exact ⟨[], [], rfl, by simp, by simp⟩
    | cons y ys =>
      rw [hs] at h
      simp only [PlayerActions.insertDesc] at h
      obtain ⟨pre', post', heq', hpre', hpost'⟩ := ih y ys hs
      have hrest_le : ∀ r ∈ rest, r.priority ≤ y.priority := by
        intro r hr
        rw [heq'] at hr
        rcases List.mem_append.mp hr with hr1 | hr2
        · exact le_of_lt (hpre' r hr1)
        · rcases List.mem_cons.mp hr2 with hr3 | hr4
          · rw [hr3]
          · exact hpost' r hr4
      by_cases hy : y.priority ≤ a.priority
      · rw [if_pos hy] at h
        obtain ⟨h1, -⟩ := List.cons.inj h
        subst h1
        refine ⟨[], rest, rfl, by simp, ?_⟩
        intro r hr
        exact le_trans (hrest_le r hr) hy
      · rw [if_neg hy] at h
        obtain ⟨h1, -⟩ := List.cons.inj h
        subst h1
        refine ⟨a :: pre', post', by rw [heq']; rfl, ?_, hpost'⟩
        intro r hr
        rcases List.mem_cons.mp hr with hr1 | hr2
        · rw [hr1]
          exact lt_of_not_le hy
        · exact hpre' r hr2

/-- C6: `process_responses` applies the declared action of the candidate with
the strictly highest priority, ties broken by enumeration (seat) order; when
the winning candidate is a pass, the turn advances to the next seat which
draws the wall head, the game ending instead when the wall is empty; and in
the concrete pong-versus-hu scenario the hu is applied and the pong candidate
is discarded entirely. -/
theorem process_responses_selects_highest :
    (∀ (gs : GameState) (did : String) (rs : List PlayerResponse) r rest,
      rs = r :: rest →
      ∃ pre post sel, rs = pre ++ sel :: post ∧
        (∀ x ∈ pre, x.priority < sel.priority) ∧
        (∀ x ∈ post, x.priority ≤ sel.priority) ∧
        PlayerActions.process_responses gs rs did =
          (if sel.action_type = .PASS then PlayerActions.next_player_draw gs
           else PlayerActions.declare_action gs sel.player_id sel.action_type
             sel.target_tile (some did))) ∧
    (∀ gs : GameState, gs.wall = [] →
      PlayerActions.next_player_draw gs = .ok (PlayerActions.endGame gs) ∧
      (PlayerActions.endGame gs).game_phase = .ENDED) ∧
    (∀ (gs : GameState) (drawn : Tile) (rest : List Tile) (np : Player),
      gs.wall = drawn :: rest →
      gs.players.get? ((gs.current_player_index + 1) % 4) = some np →
      PlayerActions.next_player_draw gs = .ok { gs with
        players := gs.players.set ((gs.current_player_index + 1) % 4)
          { np with hand := np.hand ++ [drawn], last_drawn_tile := some drawn },
        wall := rest,
        current_player_index := (gs.current_player_index + 1) % 4 }) ∧
    (PlayerActions.process_responses c6State
        (PlayerActions.collect_ai_responses c6State ⟨Suit.WAN, 1⟩ "ai_1")
        "ai_1" =
      PlayerActions.declare_action c6State "ai_3" .HU ⟨Suit.WAN, 1⟩
        (some "ai_1") ∧
      ((PlayerActions.collect_ai_responses c6State ⟨Suit.WAN, 1⟩
        "ai_1").map fun r => (r.player_id, r.action_type, r.priority)) =
        [("ai_2", ActionType.PONG, 1), ("ai_3", ActionType.HU, 3),
          ("ai_4", ActionType.PASS, 0)]) := by
  refine ⟨?_, ?_, ?_, ⟨by rfl, by decide⟩⟩
  · intro gs did rs r rest hrs
    cases hs : PlayerActions.sortResponsesDesc rs with
    | nil =>
      rw [hrs] at hs
      exact absurd (sortResponsesDesc_eq_nil hs) (by simp)
    | cons sel others =>
      obtain ⟨pre, post, heq, hpre, hpost⟩ :=
        sortResponsesDesc_head_decomp rs sel others hs
      refine ⟨pre, post, sel, heq, hpre, hpost, ?_⟩
      simp only [PlayerActions.process_responses, hs]
  · intro gs hw
    constructor
    · simp [PlayerActions.next_player_draw, hw]
    · unfold PlayerActions.endGame
      by_cases hph : gs.game_phase = .ENDED
      · rw [if_pos hph]
        exact hph
      · rw [if_neg hph]
  · intro gs drawn rest np hw hnp
    rw [List.get?_eq_getElem?] at hnp
    simp [PlayerActions.next_player_draw, hw, hnp]

/-- C8: every successful discard appends exactly one entry to the discard log
and clears the discarder's `last_drawn_tile` — but the entry the code appends
is the bare `Tile` (player_actions.py line 433), not a `DiscardedTile`
carrying the discarder's identity and a sequence index as the model layer
declares and the claim states; at the concrete input the new log is exactly
the old log plus the raw discarded tile. -/
theorem discard_appends_bare_tile :
    (∀ (gs gs' : GameState) (pid : String) (tile : Tile),
      PlayerActions.discard_tile gs pid tile true = .ok gs' →
      gs'.public_discards = gs.public_discards ++ [tile] ∧
      (gs'.players.get? gs.current_player_index).map Player.last_drawn_tile =
        some none) ∧
    (∃ gs', PlayerActions.discard_tile c8State "A" ⟨Suit.WAN, 1⟩ true =
        .ok gs' ∧
      gs'.public_discards = [⟨Suit.WAN, 1⟩] ∧
      (gs'.players.get? 0).map Player.last_drawn_tile = some none) := by
  constructor
  · intro gs gs' pid tile h
    simp only [PlayerActions.discard_tile] at h
    rw [ite_eq_iff] at h
    rcases h with ⟨-, h⟩ | ⟨-, h⟩
    · cases h
    cases hcur : gs.players.get? gs.current_player_index with
    | none =>
      simp only [hcur] at h
      cases h
    | some cp =>
      simp only [hcur] at h
      rw [ite_eq_iff] at h
      rcases h with ⟨-, h⟩ | ⟨-, h⟩
      · cases h
      rw [ite_eq_iff] at h
      rcases h with ⟨-, h⟩ | ⟨-, h⟩
      · cases h
      rw [ite_eq_iff] at h
      rcases h with ⟨-, h⟩ | ⟨-, h⟩
      · cases h
      rw [ite_eq_iff] at h
      rcases h with ⟨-, h⟩ | ⟨-, h⟩
      · cases h
      simp only [if_true] at h
      cases h
      refine ⟨rfl, ?_⟩
      show ((gs.players.set gs.current_player_index _).get?
        gs.current_player_index).map Player.last_drawn_tile = some none
      rw [List.get?_eq_getElem?] at hcur ⊢
      obtain ⟨hlt, -⟩ := List.getElem?_eq_some.mp hcur
      rw [List.getElem?_set_self hlt]
      rfl
  · exact ⟨_, rfl, by decide, by decide⟩

end Mahjong
